import Mathlib

/-!
# Verification of the slack-com-graph capture script

This file gives a shallow embedding, in Lean 4, of the capture-and-normalize
pipeline of src/scripts/slack_capture.js (with the companion users-capture
hook in src/unnamed/part_000), and proves or refutes the specification claims
about it.

Modelling conventions, used throughout:

* JavaScript values that flow through the pipeline are modelled by the
  inductive type JVal of JSON-like values (null, booleans, integers, strings,
  arrays, objects).  JS numbers are modelled as integers, which covers every
  numeric value the script itself produces (status codes, durations, counts).
* null and undefined are conflated into JVal.null.  In every code path of the
  script the two behave identically: both are skipped by the merge loop
  (v == null), both are falsy, and an object key holding undefined is
  observationally equivalent (for this code) to an absent key, so object
  literals whose fields may be undefined are modelled with the corresponding
  JVal possibly being .null.
* JS objects are modelled as insertion-ordered association lists
  (List (String x JVal)); Map objects likewise, keyed by JVal.  Both JS
  objects and Map preserve insertion order, and assignment to an existing key
  keeps its position: assocSet below reproduces exactly that.
* Exceptions thrown by host functions (fetch, clone, text, JSON.parse, ...)
  are modelled by Except values supplied by an environment record; the
  script's own bookkeeping is total.
-/

set_option linter.unusedVariables false

namespace SlackCapture

/-- JSON-like JavaScript values (see the modelling conventions above). -/
inductive JVal where
  | null : JVal
  | bool (b : Bool) : JVal
  | num (n : Int) : JVal
  | str (s : String) : JVal
  | arr (items : List JVal) : JVal
  | obj (fields : List (String × JVal)) : JVal

mutual

/-- Structural (boolean) equality of JVal. -/
def JVal.beq : JVal → JVal → Bool
  | .null, .null => true
  | .bool a, .bool c => a == c
  | .num a, .num c => a == c
  | .str a, .str c => a == c
  | .arr xs, .arr ys => JVal.beqList xs ys
  | .obj xs, .obj ys => JVal.beqFields xs ys
  | _, _ => false

def JVal.beqList : List JVal → List JVal → Bool
  | [], [] => true
  | x :: xs, y :: ys => JVal.beq x y && JVal.beqList xs ys
  | _, _ => false

def JVal.beqFields : List (String × JVal) → List (String × JVal) → Bool
  | [], [] => true
  | (k, v) :: xs, (k₂, v₂) :: ys => k == k₂ && JVal.beq v v₂ && JVal.beqFields xs ys
  | _, _ => false

end

theorem JVal.beqList_iff (xs ys : List JVal)
    (h : ∀ x ∈ xs, ∀ b, (JVal.beq x b = true ↔ x = b)) :
    JVal.beqList xs ys = true ↔ xs = ys := by
  induction xs generalizing ys with
  | nil => cases ys <;> simp [JVal.beqList]
  | cons x xs ih =>
    cases ys with
    | nil => simp [JVal.beqList]
    | cons y ys =>
      simp [JVal.beqList, h x (by simp) y, ih ys (fun x' hx' => h x' (by simp [hx']))]

theorem JVal.beqFields_iff (xs ys : List (String × JVal))
    (h : ∀ p ∈ xs, ∀ b, (JVal.beq p.2 b = true ↔ p.2 = b)) :
    JVal.beqFields xs ys = true ↔ xs = ys := by
  induction xs generalizing ys with
  | nil => cases ys <;> simp [JVal.beqFields]
  | cons x xs ih =>
    obtain ⟨k, v⟩ := x
    cases ys with
    | nil => simp [JVal.beqFields]
    | cons y ys =>
      obtain ⟨k₂, v₂⟩ := y
      have h1 := h (k, v) (by simp) v₂
      have h2 := ih ys (fun p hp => h p (by simp [hp]))
      simp only [JVal.beqFields, Bool.and_eq_true, List.cons.injEq, Prod.mk.injEq,
        beq_iff_eq, h1, h2]
      try tauto

theorem JVal.beq_iff_eq : ∀ a b : JVal, JVal.beq a b = true ↔ a = b := by
  have H : ∀ (n : Nat) (a b : JVal), sizeOf a ≤ n → (JVal.beq a b = true ↔ a = b) := by
    intro n
    induction n with
    | zero => intro a b h; cases a <;> simp_arith at h
    | succ n ih =>
      intro a b ha
      cases a with
      | null => cases b <;> simp [JVal.beq]
      | bool x => cases b <;> simp [JVal.beq]
      | num x => cases b <;> simp [JVal.beq]
      | str x => cases b <;> simp [JVal.beq]
      | arr xs =>
        cases b <;> simp only [JVal.beq, JVal.arr.injEq] <;> try simp
        apply JVal.beqList_iff
        intro x hx b
        apply ih
        have h1 : sizeOf x < sizeOf xs := List.sizeOf_lt_of_mem hx
        have h2 : sizeOf (JVal.arr xs) = 1 + sizeOf xs := by simp
        omega
      | obj fs =>
        cases b <;> simp only [JVal.beq, JVal.obj.injEq] <;> try simp
        apply JVal.beqFields_iff
        intro p hp b
        apply ih
        have h1 : sizeOf p < sizeOf fs := List.sizeOf_lt_of_mem hp
        have h2 : sizeOf (JVal.obj fs) = 1 + sizeOf fs := by simp
        have h3 : sizeOf p.2 < sizeOf p := by
          obtain ⟨k, v⟩ := p; simp_arith
        omega
  exact fun a b => H (sizeOf a) a b (Nat.le_refl _)

instance : DecidableEq JVal := fun a b =>
  decidable_of_iff _ (JVal.beq_iff_eq a b)

/-- JS truthiness of a value (false, 0, the empty string, null/undefined are
falsy; arrays and objects, even empty ones, are truthy). -/
def truthy : JVal → Bool
  | .null => false
  | .bool b => b
  | .num n => n != 0
  | .str s => s != ""
  | .arr _ => true
  | .obj _ => true

/-- The emptiness test used by the merge loop in addOrMergeUser:
v == null || v === "" (null/undefined or the empty string). -/
def isEmptyVal : JVal → Bool
  | .null => true
  | .str s => s == ""
  | _ => false

theorem truthy_not_empty {v : JVal} (h : truthy v = true) : isEmptyVal v = false := by
  cases v <;> simp_all [truthy, isEmptyVal]

/-- typeof v === "object" for non-null values (arrays included). -/
def isObjType : JVal → Bool
  | .obj _ => true
  | .arr _ => true
  | .null => true
  | _ => false

def isStr : JVal → Bool
  | .str _ => true
  | _ => false

/-! ## Association lists (insertion-ordered JS objects and Maps) -/

section Assoc

variable {κ : Type} [DecidableEq κ] {β : Type}

/-- First binding of key k, i.e. reading obj[k] (None models undefined). -/
def assocGet (l : List (κ × β)) (k : κ) : Option β :=
  match l with
  | [] => none
  | (k', v) :: t => if k' = k then some v else assocGet t k

/-- Assignment obj[k] = v: overwrite in place if the key is present,
otherwise append at the end (JS insertion-order semantics). -/
def assocSet (l : List (κ × β)) (k : κ) (v : β) : List (κ × β) :=
  match l with
  | [] => [(k, v)]
  | (k', v') :: t => if k' = k then (k, v) :: t else (k', v') :: assocSet t k v

theorem assocGet_set_self (l : List (κ × β)) (k : κ) (v : β) :
    assocGet (assocSet l k v) k = some v := by
  induction l with
  | nil => simp [assocGet, assocSet]
  | cons hd t ih =>
    obtain ⟨k', v'⟩ := hd
    by_cases h : k' = k <;> simp [assocGet, assocSet, h, ih]

theorem assocGet_set_other (l : List (κ × β)) (k k₀ : κ) (v : β) (h : k ≠ k₀) :
    assocGet (assocSet l k₀ v) k = assocGet l k := by
  induction l with
  | nil => simp [assocGet, assocSet, Ne.symm h]
  | cons hd t ih =>
    obtain ⟨k', v'⟩ := hd
    by_cases hk : k' = k₀
    · subst hk
      simp [assocGet, assocSet, Ne.symm h]
    · simp only [assocSet, if_neg hk, assocGet]
      by_cases hk2 : k' = k <;> simp [hk2, ih]

theorem assocSet_set_same (l : List (κ × β)) (k : κ) (v w : β) :
    assocSet (assocSet l k v) k w = assocSet l k w := by
  induction l with
  | nil => simp [assocSet]
  | cons hd t ih =>
    obtain ⟨k', v'⟩ := hd
    by_cases h : k' = k <;> simp [assocSet, h, ih]

theorem mem_assocSet (l : List (κ × β)) (k₀ : κ) (v₀ : β) (p : κ × β)
    (h : p ∈ assocSet l k₀ v₀) : p = (k₀, v₀) ∨ p ∈ l := by
  induction l with
  | nil => simpa [assocSet] using h
  | cons hd t ih =>
    obtain ⟨k', v'⟩ := hd
    by_cases hk : k' = k₀
    · simp only [assocSet, if_pos hk, List.mem_cons] at h
      rcases h with h | h
      · exact Or.inl h
      · exact Or.inr (List.mem_cons_of_mem _ h)
    · simp only [assocSet, if_neg hk, List.mem_cons] at h
      rcases h with h | h
      · exact Or.inr (by simp [h])
      · rcases ih h with h' | h'
        · exact Or.inl h'
        · exact Or.inr (List.mem_cons_of_mem _ h')

end Assoc

/-- Reading a property of a JS value where the code has already ensured the
receiver is not null/undefined: object lookup yields the bound value (absent
keys give undefined, modelled .null); property reads on primitives and arrays
used by this script yield undefined. -/
def jget (v : JVal) (k : String) : JVal :=
  match v with
  | .obj fs => (assocGet fs k).getD .null
  | _ => .null

/-- JS a || b : the first operand if truthy, otherwise the second. -/
def jor (a b : JVal) : JVal :=
  if truthy a then a else b

/-! ## User registry and merge (addOrMergeUser / addOrMerge)

A candidate user record is a JS object: List (String × JVal).
The registry (the users Map, id -> user object) is keyed by JVal. -/

/-- A candidate or stored user record: a JS object as an ordered field list. -/
abbrev URecord := List (String × JVal)

/-- The users Map: id value -> record, in insertion order. -/
abbrev RegState := List (JVal × URecord)

/-- One step of the merge loop body in addOrMergeUser:
if (v == null || v === "") continue;
if (merged[k] == null || merged[k] === "") merged[k] = v; -/
def mergeEntry (merged : URecord) (e : String × JVal) : URecord :=
  if isEmptyVal e.2 then merged
  else
    match assocGet merged e.1 with
    | some w => if isEmptyVal w then assocSet merged e.1 e.2 else merged
    | none => assocSet merged e.1 e.2

/-- The whole merge loop: fold the candidate's fields (in insertion order)
into a copy of the previous record. -/
def mergeInto (prev : URecord) (u : URecord) : URecord :=
  u.foldl mergeEntry prev

/-- The id property of a record (undefined modelled as .null). -/
def idVal (u : URecord) : JVal :=
  (assocGet u "id").getD .null

/-- addOrMergeUser(u) from src/scripts/slack_capture.js lines 358-367
(addOrMerge in src/unnamed/part_000 is the same algorithm):
if (!u || !u.id) return;  fetch-or-create the entry for u.id, keep first
non-empty values, store under merged.id. (A null u is handled by callers;
here candidates are records.) -/
def addOrMergeUser (users : RegState) (u : URecord) : RegState :=
  if truthy (idVal u) then
    let prev := (assocGet users (idVal u)).getD []
    let merged := mergeInto prev u
    assocSet users (idVal merged) merged
  else users

/-- users.clear() behind clearUsers(). -/
def clearUsers (users : RegState) : RegState := []

/-! ### Merge algebra -/

/-- The first non-empty value bound to key k among the candidate's fields,
in field order: the value the merge loop would contribute for key k. -/
def firstNonEmpty (u : URecord) (k : String) : Option JVal :=
  match u with
  | [] => none
  | (k', v) :: t =>
    if k' = k ∧ isEmptyVal v = false then some v else firstNonEmpty t k

theorem firstNonEmpty_not_empty {u : URecord} {k : String} {v : JVal}
    (h : firstNonEmpty u k = some v) : isEmptyVal v = false := by
  induction u with
  | nil => simp [firstNonEmpty] at h
  | cons e t ih =>
    obtain ⟨k', v'⟩ := e
    by_cases hc : k' = k ∧ isEmptyVal v' = false
    · simp only [firstNonEmpty, if_pos hc, Option.some.injEq] at h
      subst h; exact hc.2
    · simp only [firstNonEmpty, if_neg hc] at h
      exact ih h

theorem firstNonEmpty_of_mem {u : URecord} {k : String} {v : JVal}
    (hmem : (k, v) ∈ u) (hne : isEmptyVal v = false) :
    ∃ w, firstNonEmpty u k = some w := by
  induction u with
  | nil => simp at hmem
  | cons e t ih =>
    obtain ⟨k', v'⟩ := e
    by_cases hc : k' = k ∧ isEmptyVal v' = false
    · exact ⟨v', by simp [firstNonEmpty, hc]⟩
    · rcases List.mem_cons.mp hmem with h | h
      · obtain ⟨h1, h2⟩ := Prod.mk.inj h
        exact absurd ⟨h1.symm, h2 ▸ hne⟩ hc
      · obtain ⟨w, hw⟩ := ih h
        exact ⟨w, by simp [firstNonEmpty, hc, hw]⟩

theorem firstNonEmpty_of_assocGet {u : URecord} {k : String} {v : JVal}
    (h : assocGet u k = some v) (hne : isEmptyVal v = false) :
    firstNonEmpty u k = some v := by
  induction u with
  | nil => simp [assocGet] at h
  | cons e t ih =>
    obtain ⟨k', v'⟩ := e
    by_cases hk : k' = k
    · simp only [assocGet, if_pos hk, Option.some.injEq] at h
      subst h
      simp [firstNonEmpty, hk, hne]
    · simp only [assocGet, if_neg hk] at h
      have : ¬(k' = k ∧ isEmptyVal v' = false) := fun hc => hk hc.1
      simp [firstNonEmpty, this, ih h]

theorem assocGet_mergeEntry_other {m : URecord} {e : String × JVal} {k : String}
    (h : e.1 ≠ k) : assocGet (mergeEntry m e) k = assocGet m k := by
  unfold mergeEntry
  by_cases he : isEmptyVal e.2 = true
  · simp [he]
  · simp only [he, if_false]
    cases hm : assocGet m e.1 with
    | none => simp [assocGet_set_other _ _ _ _ (Ne.symm h)]
    | some w =>
      by_cases hw : isEmptyVal w = true <;>
        simp [hw, assocGet_set_other _ _ _ _ (Ne.symm h)]

/-- If the target already has a non-empty value at k, merging never touches it. -/
theorem assocGet_mergeInto_of_nonEmpty {p : URecord} {k : String} {w : JVal}
    (hp : assocGet p k = some w) (hw : isEmptyVal w = false) (u : URecord) :
    assocGet (mergeInto p u) k = some w := by
  induction u generalizing p with
  | nil => exact hp
  | cons e t ih =>
    show assocGet (mergeInto (mergeEntry p e) t) k = some w
    apply ih
    by_cases hek : e.1 = k
    · unfold mergeEntry
      by_cases he : isEmptyVal e.2 = true
      · simp [he, hp]
      · simp [he, hek, hp, hw]
    · rw [assocGet_mergeEntry_other hek]; exact hp

/-- If the target has no binding at k, the merge contributes exactly the
first non-empty candidate value for k (or leaves k absent). -/
theorem assocGet_mergeInto_of_none {p : URecord} {k : String}
    (hp : assocGet p k = none) (u : URecord) :
    assocGet (mergeInto p u) k = firstNonEmpty u k := by
  induction u generalizing p with
  | nil => exact hp
  | cons e t ih =>
    obtain ⟨k', v⟩ := e
    show assocGet (mergeInto (mergeEntry p (k', v)) t) k = _
    by_cases hc : k' = k ∧ isEmptyVal v = false
    · obtain ⟨hk, hv⟩ := hc
      subst hk
      have hset : assocGet (mergeEntry p (k', v)) k' = some v := by
        unfold mergeEntry
        simp [hv, hp, assocGet_set_self]
      rw [assocGet_mergeInto_of_nonEmpty hset hv]
      simp [firstNonEmpty, hv]
    · have hrest : assocGet (mergeEntry p (k', v)) k = none := by
        by_cases hk : k' = k
        · subst hk
          have hv : isEmptyVal v = true := by
            by_contra hv
            exact hc ⟨rfl, by simpa using hv⟩
          unfold mergeEntry
          simp [hv, hp]
        · rw [assocGet_mergeEntry_other hk]; exact hp
      rw [ih hrest]
      simp [firstNonEmpty, hc]

/-- If the target has an empty value at k, the merge overwrites it with the
first non-empty candidate value for k, if any. -/
theorem assocGet_mergeInto_of_empty {p : URecord} {k : String} {w : JVal}
    (hp : assocGet p k = some w) (hw : isEmptyVal w = true) (u : URecord) :
    assocGet (mergeInto p u) k = some ((firstNonEmpty u k).getD w) := by
  induction u generalizing p w with
  | nil => simpa [firstNonEmpty] using hp
  | cons e t ih =>
    obtain ⟨k', v⟩ := e
    show assocGet (mergeInto (mergeEntry p (k', v)) t) k = _
    by_cases hc : k' = k ∧ isEmptyVal v = false
    · obtain ⟨hk, hv⟩ := hc
      subst hk
      have hset : assocGet (mergeEntry p (k', v)) k' = some v := by
        unfold mergeEntry
        simp [hv, hp, hw, assocGet_set_self]
      rw [assocGet_mergeInto_of_nonEmpty hset hv]
      simp [firstNonEmpty, hv]
    · have hrest : assocGet (mergeEntry p (k', v)) k = some w := by
        by_cases hk : k' = k
        · subst hk
          have hv : isEmptyVal v = true := by
            by_contra hv
            exact hc ⟨rfl, by simpa using hv⟩
          unfold mergeEntry
          simp [hv, hp]
        · rw [assocGet_mergeEntry_other hk]; exact hp
      rw [ih hrest hw]
      simp [firstNonEmpty, hc]

theorem mergeEntry_of_nonEmpty {m : URecord} {e : String × JVal} {w : JVal}
    (hw : assocGet m e.1 = some w) (hne : isEmptyVal w = false) :
    mergeEntry m e = m := by
  unfold mergeEntry
  by_cases he : isEmptyVal e.2 = true <;> simp [he, hw, hne]

theorem mergeInto_absorb {m : URecord} {u : URecord}
    (h : ∀ e ∈ u, isEmptyVal e.2 = false →
      ∃ w, assocGet m e.1 = some w ∧ isEmptyVal w = false) :
    mergeInto m u = m := by
  induction u with
  | nil => rfl
  | cons e t ih =>
    have step : mergeEntry m e = m := by
      by_cases he : isEmptyVal e.2 = false
      · obtain ⟨w, hw, hne⟩ := h e (by simp) he
        exact mergeEntry_of_nonEmpty hw hne
      · unfold mergeEntry
        simp only [Bool.not_eq_false] at he
        simp [he]
    show mergeInto (mergeEntry m e) t = m
    rw [step]
    exact ih (fun e' he' => h e' (by simp [he']))

/-- Merging the same candidate a second time changes nothing (record level). -/
theorem mergeInto_idem (p u : URecord) :
    mergeInto (mergeInto p u) u = mergeInto p u := by
  apply mergeInto_absorb
  intro e he hne
  obtain ⟨k, v⟩ := e
  obtain ⟨w, hw⟩ := firstNonEmpty_of_mem he hne
  have hwne := firstNonEmpty_not_empty hw
  cases hp : assocGet p k with
  | none =>
    refine ⟨w, ?_, hwne⟩
    rw [assocGet_mergeInto_of_none hp]; exact hw
  | some w0 =>
    by_cases h0 : isEmptyVal w0 = true
    · refine ⟨(firstNonEmpty u k).getD w0, ?_, ?_⟩
      · exact assocGet_mergeInto_of_empty hp h0 u
      · rw [hw]; exact hwne
    · exact ⟨w0, assocGet_mergeInto_of_nonEmpty hp (by simpa using h0) u,
        by simpa using h0⟩

/-- Two candidates are compatible when they never contribute two distinct
non-empty values for the same field. -/
def Compatible (u₁ u₂ : URecord) : Prop :=
  ∀ k v₁ v₂, firstNonEmpty u₁ k = some v₁ → firstNonEmpty u₂ k = some v₂ → v₁ = v₂

/-- Field-wise commutativity of the double merge, under compatibility. -/
theorem assocGet_mergeInto_comm {u₁ u₂ : URecord} (hc : Compatible u₁ u₂)
    (p : URecord) (k : String) :
    assocGet (mergeInto (mergeInto p u₁) u₂) k
      = assocGet (mergeInto (mergeInto p u₂) u₁) k := by
  cases hp : assocGet p k with
  | some w =>
    by_cases hw : isEmptyVal w = true
    · have h1 := assocGet_mergeInto_of_empty hp hw u₁
      have h2 := assocGet_mergeInto_of_empty hp hw u₂
      cases hf1 : firstNonEmpty u₁ k with
      | some v₁ =>
        have hv1 := firstNonEmpty_not_empty hf1
        rw [hf1] at h1
        have lhs := assocGet_mergeInto_of_nonEmpty (w := v₁) (by simpa using h1) hv1 u₂
        cases hf2 : firstNonEmpty u₂ k with
        | some v₂ =>
          have hv2 := firstNonEmpty_not_empty hf2
          rw [hf2] at h2
          have rhs := assocGet_mergeInto_of_nonEmpty (w := v₂) (by simpa using h2) hv2 u₁
          rw [lhs, rhs, hc k v₁ v₂ hf1 hf2]
        | none =>
          rw [hf2] at h2
          have rhs := assocGet_mergeInto_of_empty (w := w) (by simpa using h2) hw u₁
          rw [lhs, rhs, hf1]; simp
      | none =>
        rw [hf1] at h1
        have lhs := assocGet_mergeInto_of_empty (w := w) (by simpa using h1) hw u₂
        cases hf2 : firstNonEmpty u₂ k with
        | some v₂ =>
          have hv2 := firstNonEmpty_not_empty hf2
          rw [hf2] at h2
          have rhs := assocGet_mergeInto_of_nonEmpty (w := v₂) (by simpa using h2) hv2 u₁
          rw [lhs, rhs, hf2]; simp
        | none =>
          rw [hf2] at h2
          have rhs := assocGet_mergeInto_of_empty (w := w) (by simpa using h2) hw u₁
          rw [lhs, rhs, hf1, hf2]
    · have hw' : isEmptyVal w = false := by simpa using hw
      rw [assocGet_mergeInto_of_nonEmpty (assocGet_mergeInto_of_nonEmpty hp hw' u₁) hw' u₂,
        assocGet_mergeInto_of_nonEmpty (assocGet_mergeInto_of_nonEmpty hp hw' u₂) hw' u₁]
  | none =>
    have h1 := assocGet_mergeInto_of_none hp u₁
    have h2 := assocGet_mergeInto_of_none hp u₂
    cases hf1 : firstNonEmpty u₁ k with
    | some v₁ =>
      have hv1 := firstNonEmpty_not_empty hf1
      rw [hf1] at h1
      have lhs := assocGet_mergeInto_of_nonEmpty h1 hv1 u₂
      cases hf2 : firstNonEmpty u₂ k with
      | some v₂ =>
        have hv2 := firstNonEmpty_not_empty hf2
        rw [hf2] at h2
        have rhs := assocGet_mergeInto_of_nonEmpty h2 hv2 u₁
        rw [lhs, rhs, hc k v₁ v₂ hf1 hf2]
      | none =>
        rw [hf2] at h2
        have rhs := assocGet_mergeInto_of_none h2 u₁
        rw [lhs, rhs, hf1]
    | none =>
      rw [hf1] at h1
      have lhs := assocGet_mergeInto_of_none h1 u₂
      cases hf2 : firstNonEmpty u₂ k with
      | some v₂ =>
        have hv2 := firstNonEmpty_not_empty hf2
        rw [hf2] at h2
        have rhs := assocGet_mergeInto_of_nonEmpty h2 hv2 u₁
        rw [lhs, rhs, hf2]
      | none =>
        rw [hf2] at h2
        have rhs := assocGet_mergeInto_of_none h2 u₁
        rw [lhs, rhs, hf1, hf2]

/-! ### Registry-level lemmas -/

theorem assocGet_mem {κ β : Type} [DecidableEq κ] {l : List (κ × β)} {k : κ} {v : β}
    (h : assocGet l k = some v) : (k, v) ∈ l := by
  induction l with
  | nil => simp [assocGet] at h
  | cons e t ih =>
    obtain ⟨k', v'⟩ := e
    by_cases hk : k' = k
    · have hv : v' = v := by
        have : some v' = some v := by simpa [assocGet, hk] using h
        exact Option.some.inj this
      rw [hk, hv]
      exact List.mem_cons_self _ _
    · have h' : assocGet t k = some v := by simpa [assocGet, hk] using h
      exact List.mem_cons_of_mem _ (ih h')

theorem idVal_some_of_truthy {u : URecord} (h : truthy (idVal u) = true) :
    assocGet u "id" = some (idVal u) := by
  unfold idVal at h ⊢
  cases hg : assocGet u "id" with
  | none => rw [hg] at h; simp [truthy] at h
  | some v => simp [hg]

theorem firstNonEmpty_id_of_truthy {u : URecord} (h : truthy (idVal u) = true) :
    firstNonEmpty u "id" = some (idVal u) :=
  firstNonEmpty_of_assocGet (idVal_some_of_truthy h) (truthy_not_empty h)

/-- The id of a merge result: the target's id if non-empty, else the
candidate's (truthy) id. -/
theorem idVal_mergeInto {prev u : URecord} (hu : truthy (idVal u) = true) :
    idVal (mergeInto prev u)
      = if isEmptyVal (idVal prev) = true then idVal u else idVal prev := by
  cases hp : assocGet prev "id" with
  | none =>
    have h := assocGet_mergeInto_of_none (k := "id") hp u
    rw [firstNonEmpty_id_of_truthy hu] at h
    unfold idVal
    rw [h, hp]
    simp [isEmptyVal, idVal]
  | some w =>
    by_cases hw : isEmptyVal w = true
    · have h := assocGet_mergeInto_of_empty hp hw u
      rw [firstNonEmpty_id_of_truthy hu] at h
      unfold idVal
      rw [h, hp]
      simp [hw, idVal]
    · have h := assocGet_mergeInto_of_nonEmpty hp (by simpa using hw) u
      unfold idVal
      rw [h, hp]
      simp [hw]

theorem addOrMergeUser_eq_of_truthy {s : RegState} {u : URecord}
    (h : truthy (idVal u) = true) :
    addOrMergeUser s u
      = assocSet s (idVal (mergeInto ((assocGet s (idVal u)).getD []) u))
          (mergeInto ((assocGet s (idVal u)).getD []) u) := by
  unfold addOrMergeUser
  rw [if_pos h]

theorem addOrMergeUser_eq_of_falsy {s : RegState} {u : URecord}
    (h : ¬ truthy (idVal u) = true) : addOrMergeUser s u = s := by
  unfold addOrMergeUser
  rw [if_neg h]

/-- Merging the same candidate a second time changes nothing (registry level):
the merge operation is idempotent. -/
theorem addOrMergeUser_idem (s : RegState) (u : URecord) :
    addOrMergeUser (addOrMergeUser s u) u = addOrMergeUser s u := by
  by_cases h : truthy (idVal u) = true
  · have e1 := addOrMergeUser_eq_of_truthy (s := s) h
    generalize hprev : (assocGet s (idVal u)).getD [] = prev at e1
    generalize hmerged : mergeInto prev u = merged at e1
    rw [e1, addOrMergeUser_eq_of_truthy h]
    have hidem : mergeInto merged u = merged := by
      rw [← hmerged]; exact mergeInto_idem prev u
    by_cases hWK : idVal merged = idVal u
    · rw [hWK, assocGet_set_self]
      simp only [Option.getD_some]
      rw [hidem, hWK, assocSet_set_same]
    · rw [assocGet_set_other s (idVal u) (idVal merged) merged (fun hh => hWK hh.symm),
        hprev, hmerged]
      exact assocSet_set_same ..
  · rw [addOrMergeUser_eq_of_falsy h, addOrMergeUser_eq_of_falsy h]

/-- Merging two compatible candidates sharing the same id, in either order,
gives field-wise equal records at that id (and both orders leave a record
there exactly when the other does). -/
theorem addOrMergeUser_comm_compat (s : RegState) (u₁ u₂ : URecord)
    (hid : idVal u₁ = idVal u₂) (hc : Compatible u₁ u₂) :
    (assocGet (addOrMergeUser (addOrMergeUser s u₁) u₂) (idVal u₁) = none ∧
      assocGet (addOrMergeUser (addOrMergeUser s u₂) u₁) (idVal u₁) = none) ∨
    (∃ a b, assocGet (addOrMergeUser (addOrMergeUser s u₁) u₂) (idVal u₁) = some a ∧
      assocGet (addOrMergeUser (addOrMergeUser s u₂) u₁) (idVal u₁) = some b ∧
      ∀ f, assocGet a f = assocGet b f) := by
  by_cases ht : truthy (idVal u₁) = true
  case neg =>
    have ht₂ : ¬ truthy (idVal u₂) = true := by rw [← hid]; exact ht
    simp only [addOrMergeUser_eq_of_falsy ht₂, addOrMergeUser_eq_of_falsy ht]
    cases hg : assocGet s (idVal u₁) with
    | none => exact Or.inl ⟨rfl, rfl⟩
    | some r => exact Or.inr ⟨r, r, rfl, rfl, fun f => rfl⟩
  case pos =>
    have ht₂ : truthy (idVal u₂) = true := hid ▸ ht
    rw [addOrMergeUser_eq_of_truthy ht₂, addOrMergeUser_eq_of_truthy ht,
      addOrMergeUser_eq_of_truthy ht₂, addOrMergeUser_eq_of_truthy ht, ← hid]
    generalize hprev : (assocGet s (idVal u₁)).getD [] = prev
    have hW₁ : idVal (mergeInto prev u₁)
        = if isEmptyVal (idVal prev) = true then idVal u₁ else idVal prev :=
      idVal_mergeInto ht
    have hW₂ : idVal (mergeInto prev u₂)
        = if isEmptyVal (idVal prev) = true then idVal u₁ else idVal prev := by
      rw [idVal_mergeInto ht₂, ← hid]
    by_cases hWK : (if isEmptyVal (idVal prev) = true then idVal u₁ else idVal prev)
        = idVal u₁
    · -- both orders read and store at the shared id
      have hm₁ : idVal (mergeInto prev u₁) = idVal u₁ := by rw [hW₁, hWK]
      have hm₂ : idVal (mergeInto prev u₂) = idVal u₁ := by rw [hW₂, hWK]
      rw [hm₁, hm₂, assocGet_set_self, assocGet_set_self]
      simp only [Option.getD_some]
      have hq₁ : idVal (mergeInto (mergeInto prev u₁) u₂) = idVal u₁ := by
        rw [idVal_mergeInto ht₂, hm₁, truthy_not_empty ht]
        simp [← hid]
      have hq₂ : idVal (mergeInto (mergeInto prev u₂) u₁) = idVal u₁ := by
        rw [idVal_mergeInto ht, hm₂, truthy_not_empty ht]
        simp
      rw [hq₁, hq₂, assocSet_set_same, assocSet_set_same]
      exact Or.inr ⟨mergeInto (mergeInto prev u₁) u₂, mergeInto (mergeInto prev u₂) u₁,
        assocGet_set_self .., assocGet_set_self ..,
        fun f => assocGet_mergeInto_comm hc prev f⟩
    · -- degenerate fetched record with a different non-empty id: the shared
      -- id's slot is never written, in either order
      have hne : isEmptyVal (idVal prev) = false := by
        by_contra hne
        apply hWK
        simp only [Bool.not_eq_false] at hne
        rw [if_pos hne]
      have hWne : idVal prev ≠ idVal u₁ := by
        intro hh
        apply hWK
        rw [if_neg (by simp [hne]), hh]
      have hm₁ : idVal (mergeInto prev u₁) = idVal prev := by
        rw [hW₁, if_neg (by simp [hne])]
      have hm₂ : idVal (mergeInto prev u₂) = idVal prev := by
        rw [hW₂, if_neg (by simp [hne])]
      have hsK : assocGet s (idVal u₁) = some prev := by
        cases hg : assocGet s (idVal u₁) with
        | some p => rw [← hprev, hg]; rfl
        | none =>
          exfalso
          rw [← hprev, hg] at hne
          simp [idVal, assocGet, isEmptyVal] at hne
      have hother₁ : assocGet (assocSet s (idVal (mergeInto prev u₁)) (mergeInto prev u₁))
          (idVal u₁) = some prev := by
        rw [hm₁, assocGet_set_other s _ _ _ (fun hh => hWne hh.symm)]
        exact hsK
      have hother₂ : assocGet (assocSet s (idVal (mergeInto prev u₂)) (mergeInto prev u₂))
          (idVal u₁) = some prev := by
        rw [hm₂, assocGet_set_other s _ _ _ (fun hh => hWne hh.symm)]
        exact hsK
      rw [hother₁, hother₂]
      simp only [Option.getD_some]
      rw [hm₁, hm₂, assocSet_set_same, assocSet_set_same,
        assocGet_set_other _ _ _ _ (fun hh => hWne hh.symm),
        assocGet_set_other _ _ _ _ (fun hh => hWne hh.symm)]
      exact Or.inr ⟨prev, prev, hsK, hsK, fun f => rfl⟩

/-! ### Reachable registry states and the id invariant (C10) -/

/-- Registry states reachable from the empty registry through the only two
mutating operations the script performs on the users Map. -/
inductive ReachableReg : RegState → Prop where
  | empty : ReachableReg []
  | merge (u : URecord) {s : RegState} : ReachableReg s → ReachableReg (addOrMergeUser s u)
  | clear {s : RegState} : ReachableReg s → ReachableReg (clearUsers s)

/-- Every stored record carries a truthy id equal to its own map key. -/
def RegInv (s : RegState) : Prop :=
  ∀ p ∈ s, assocGet p.2 "id" = some p.1 ∧ truthy p.1 = true

theorem regInv_addOrMergeUser {s : RegState} (hs : RegInv s) (u : URecord) :
    RegInv (addOrMergeUser s u) := by
  by_cases h : truthy (idVal u) = true
  · rw [addOrMergeUser_eq_of_truthy h]
    generalize hprev : (assocGet s (idVal u)).getD [] = prev
    have hprevId : assocGet prev "id" = some (idVal u) ∨ assocGet prev "id" = none := by
      cases hg : assocGet s (idVal u) with
      | none => right; rw [← hprev, hg]; rfl
      | some p =>
        left
        have hmem := assocGet_mem hg
        have hinv := (hs (idVal u, p) hmem).1
        rw [← hprev, hg]
        exact hinv
    have hmergedId : assocGet (mergeInto prev u) "id" = some (idVal u) := by
      rcases hprevId with hp | hp
      · exact assocGet_mergeInto_of_nonEmpty hp (truthy_not_empty h) u
      · rw [assocGet_mergeInto_of_none hp, firstNonEmpty_id_of_truthy h]
    have hmid : idVal (mergeInto prev u) = idVal u := by
      unfold idVal
      rw [hmergedId]
      rfl
    intro p hp
    rcases mem_assocSet _ _ _ _ hp with hp' | hp'
    · rw [hp']
      exact ⟨by simpa [hmid] using hmergedId, by simpa [hmid] using h⟩
    · exact hs p hp'
  · rw [addOrMergeUser_eq_of_falsy h]
    exact hs

theorem regInv_of_reachable {s : RegState} (h : ReachableReg s) : RegInv s := by
  induction h with
  | empty => intro p hp; simp at hp
  | merge u hs ih => exact regInv_addOrMergeUser ih u
  | clear hs ih => intro p hp; simp [clearUsers] at hp

/-! ## Decimal numerals (shared by Object.entries on arrays and by
JSON serialization) -/

def digitChar (n : Nat) : Char :=
  match n with
  | 0 => '0' | 1 => '1' | 2 => '2' | 3 => '3' | 4 => '4'
  | 5 => '5' | 6 => '6' | 7 => '7' | 8 => '8' | 9 => '9'
  | _ => '0'

def natDigitsAux (n : Nat) (acc : List Char) : List Char :=
  if n < 10 then digitChar n :: acc
  else natDigitsAux (n / 10) (digitChar (n % 10) :: acc)
termination_by n
decreasing_by
  exact Nat.div_lt_self (by omega) (by omega)

/-- Decimal digits of n, most significant first. -/
def natDigits (n : Nat) : List Char := natDigitsAux n []

def natToStr (n : Nat) : String := String.mk (natDigits n)

/-! ## Redaction Unit: sanitizeHeaders (slack_capture.js lines 66-77) -/

/-- The excludeHeaders entry of the initial cfg literal (lines 46-54). -/
def defaultExcludeHeaders : List String :=
  ["authorization", "cookie", "x-slack-req-resource", "x-xss-protection"]

/-- key.toLowerCase() (ASCII letters; header names here are ASCII). -/
def lowerStr (s : String) : String := String.mk (s.data.map Char.toLower)

/-- Object.entries: an object's own fields in insertion order; an array's
index/value pairs. -/
def jentries (v : JVal) : List (String × JVal) :=
  match v with
  | .obj fs => fs
  | .arr xs => xs.enum.map (fun p => (natToStr p.1, p.2))
  | _ => []

/-- sanitizeHeaders(headers): {} for absent/non-object input, otherwise a new
object keeping exactly the entries whose lowercased key is not in the
configured exclusion list. -/
def sanitizeHeaders (exclude : List String) (headers : JVal) : JVal :=
  if truthy headers = false ∨ isObjType headers = false then .obj []
  else .obj ((jentries headers).filter (fun e => !(exclude.contains (lowerStr e.1))))

theorem sanitizeHeaders_not_excluded (exclude : List String) (headers : JVal)
    {k : String} {v : JVal} (h : (k, v) ∈ jentries (sanitizeHeaders exclude headers)) :
    exclude.contains (lowerStr k) = false := by
  unfold sanitizeHeaders at h
  by_cases hb : truthy headers = false ∨ isObjType headers = false
  · rw [if_pos hb] at h
    simp [jentries] at h
  · rw [if_neg hb] at h
    have := (List.mem_filter.mp h).2
    simpa using this

theorem sanitizeHeaders_mem (exclude : List String) (headers : JVal)
    {k : String} {v : JVal} (h : (k, v) ∈ jentries (sanitizeHeaders exclude headers)) :
    (k, v) ∈ jentries headers := by
  unfold sanitizeHeaders at h
  by_cases hb : truthy headers = false ∨ isObjType headers = false
  · rw [if_pos hb] at h
    simp [jentries] at h
  · rw [if_neg hb] at h
    exact (List.mem_filter.mp h).1

theorem sanitizeHeaders_complete (exclude : List String) (headers : JVal)
    {k : String} {v : JVal} (hin : (k, v) ∈ jentries headers)
    (ht : truthy headers = true) (ho : isObjType headers = true)
    (hex : exclude.contains (lowerStr k) = false) :
    (k, v) ∈ jentries (sanitizeHeaders exclude headers) := by
  unfold sanitizeHeaders
  rw [if_neg (by simp [ht, ho])]
  exact List.mem_filter.mpr ⟨hin, by simpa using hex⟩

theorem sanitizeHeaders_wrong_typed (exclude : List String) (headers : JVal)
    (h : ¬ (truthy headers = true ∧ isObjType headers = true)) :
    sanitizeHeaders exclude headers = .obj [] := by
  unfold sanitizeHeaders
  rw [if_pos]
  rcases Decidable.not_and_iff_or_not.mp h with h' | h'
  · exact Or.inl (by simpa using h')
  · exact Or.inr (by simpa using h')

theorem filter_idem {α : Type} (p : α → Bool) (l : List α) :
    (l.filter p).filter p = l.filter p := by
  induction l with
  | nil => rfl
  | cons a t ih =>
    by_cases h : p a = true <;> simp [List.filter, h, ih]

theorem sanitizeHeaders_idem (exclude : List String) (headers : JVal) :
    sanitizeHeaders exclude (sanitizeHeaders exclude headers)
      = sanitizeHeaders exclude headers := by
  by_cases hb : truthy headers = false ∨ isObjType headers = false
  · have inner : sanitizeHeaders exclude headers = .obj [] := by
      rw [sanitizeHeaders, if_pos hb]
    rw [inner, sanitizeHeaders, if_neg (by simp [truthy, isObjType])]
    simp [jentries]
  · have inner : sanitizeHeaders exclude headers
        = .obj ((jentries headers).filter (fun e => !(exclude.contains (lowerStr e.1)))) := by
      rw [sanitizeHeaders, if_neg hb]
    rw [inner, sanitizeHeaders, if_neg (by simp [truthy, isObjType])]
    simp only [jentries]
    rw [filter_idem]

/-! ## Redaction Unit: token masking
(maskTokenValue lines 84-91, sanitizeBodyText lines 98-101) -/

/-- The character class [A-Za-z0-9-] of the token regex. -/
def isTokChar (c : Char) : Bool := c.isAlpha || c.isDigit || c = '-'

/-- The bracket [abspre] after xox in the token regex. -/
def isKindChar (c : Char) : Bool :=
  c = 'a' || c = 'b' || c = 's' || c = 'p' || c = 'r' || c = 'e'

def tokCharHead : List Char → Bool
  | c :: _ => isTokChar c
  | [] => false

/-- A match of /xox[abspre]-[A-Za-z0-9-]+/ begins at the head. -/
def startsTok (cs : List Char) : Bool :=
  match cs with
  | a :: b :: c :: d :: e :: rest =>
    a = 'x' && b = 'o' && c = 'x' && isKindChar d && e = '-' && tokCharHead rest
  | _ => false

/-- The five-character header xox[abspre]- begins at the head. -/
def startsHeader (cs : List Char) : Bool :=
  match cs with
  | a :: b :: c :: d :: e :: _ =>
    a = 'x' && b = 'o' && c = 'x' && isKindChar d && e = '-'
  | _ => false

/-- Some position carries the five-character token header. -/
def hasHeader : List Char → Bool
  | [] => false
  | c :: t => startsHeader (c :: t) || hasHeader t

/-- text.replace(/xox[abspre]-[A-Za-z0-9-]+/g, m => m.slice(0, 5) + "****"):
leftmost non-overlapping matches, greedy suffix, scan resumes after each
replacement. -/
def maskTokens : List Char → List Char
  | a :: b :: c :: d :: e :: rest =>
    if a = 'x' && b = 'o' && c = 'x' && isKindChar d && e = '-' && tokCharHead rest then
      'x' :: 'o' :: 'x' :: d :: '-' :: '*' :: '*' :: '*' :: '*'
        :: maskTokens (rest.dropWhile isTokChar)
    else
      a :: maskTokens (b :: c :: d :: e :: rest)
  | a :: rest => a :: maskTokens rest
  | [] => []
termination_by cs => cs.length
decreasing_by
  all_goals simp_wf
  all_goals have h := (List.dropWhile_sublist isTokChar (l := rest)).length_le
  all_goals omega

def strVal : JVal → String
  | .str s => s
  | _ => ""

/-- maskTokenValue(text): returns non-strings and falsy values unchanged
(also when masking is configured off), otherwise the masked text. -/
def maskTokenValue (maskFlag : Bool) (v : JVal) : JVal :=
  if maskFlag = false ∨ truthy v = false ∨ isStr v = false then v
  else .str (String.mk (maskTokens (strVal v).data))

/-- sanitizeBodyText(bodyText): absent/non-string bodies unchanged, strings
run through maskTokenValue. -/
def sanitizeBodyText (maskFlag : Bool) (v : JVal) : JVal :=
  if truthy v = false ∨ isStr v = false then v
  else maskTokenValue maskFlag v

/-! ### Structure of maskTokens -/

theorem startsTok_of_ne_x {c : Char} (h : ¬ c = 'x') (t : List Char) :
    startsTok (c :: t) = false := by
  rcases t with _ | ⟨b, _ | ⟨c2, _ | ⟨d2, _ | ⟨e2, rest⟩⟩⟩⟩ <;> simp [startsTok, h]

theorem startsTok_of_second {a b : Char} (h : ¬ b = 'o') (t : List Char) :
    startsTok (a :: b :: t) = false := by
  rcases t with _ | ⟨c2, _ | ⟨d2, _ | ⟨e2, rest⟩⟩⟩ <;> simp [startsTok, h]

theorem startsTok_of_third {a b c : Char} (h : ¬ c = 'x') (t : List Char) :
    startsTok (a :: b :: c :: t) = false := by
  rcases t with _ | ⟨d2, _ | ⟨e2, rest⟩⟩ <;> simp [startsTok, h]

theorem startsTok_of_fourth {a b c d : Char} (h : isKindChar d = false) (t : List Char) :
    startsTok (a :: b :: c :: d :: t) = false := by
  rcases t with _ | ⟨e2, rest⟩ <;> simp [startsTok, h]

theorem startsTok_of_fifth {a b c d e : Char} (h : ¬ e = '-') (rest : List Char) :
    startsTok (a :: b :: c :: d :: e :: rest) = false := by
  simp [startsTok, h]

theorem startsTok_of_sixth {a b c d e : Char} (rest : List Char)
    (h : tokCharHead rest = false) :
    startsTok (a :: b :: c :: d :: e :: rest) = false := by
  simp [startsTok, h]

theorem kindChar_props {d : Char} (h : isKindChar d = true) :
    ¬ d = 'o' ∧ ¬ d = 'x' ∧ isTokChar d = true := by
  simp only [isKindChar, Bool.or_eq_true, decide_eq_true_eq] at h
  rcases h with (((((h | h) | h) | h) | h) | h) <;> subst h <;>
    exact ⟨by decide, by decide, by decide⟩

theorem maskTokens_cons_of_not {c : Char} {t : List Char}
    (h : startsTok (c :: t) = false) :
    maskTokens (c :: t) = c :: maskTokens t := by
  rcases t with _ | ⟨b, _ | ⟨c2, _ | ⟨d2, _ | ⟨e2, rest⟩⟩⟩⟩
  · simp [maskTokens]
  · simp [maskTokens]
  · simp [maskTokens]
  · simp [maskTokens]
  · have h' : (c = 'x' && b = 'o' && c2 = 'x' && isKindChar d2 && e2 = '-'
        && tokCharHead rest) = false := by
      simpa [startsTok] using h
    simp only [maskTokens, h', if_false, Bool.false_eq_true]

theorem maskTokens_of_startsTok {d : Char} {rest : List Char}
    (hd : isKindChar d = true) (hr : tokCharHead rest = true) :
    maskTokens ('x' :: 'o' :: 'x' :: d :: '-' :: rest)
      = 'x' :: 'o' :: 'x' :: d :: '-' :: '*' :: '*' :: '*' :: '*'
        :: maskTokens (rest.dropWhile isTokChar) := by
  simp [maskTokens, hd, hr]

theorem startsTok_eq_and (a b c d e : Char) (rest : List Char) :
    startsTok (a :: b :: c :: d :: e :: rest)
      = (startsHeader (a :: b :: c :: d :: e :: rest) && tokCharHead rest) := by
  simp [startsTok, startsHeader, Bool.and_assoc]

theorem startsHeader_first5 (a b c d e : Char) (t t' : List Char) :
    startsHeader (a :: b :: c :: d :: e :: t)
      = startsHeader (a :: b :: c :: d :: e :: t') := by
  simp [startsHeader]

theorem startsTok_false_of_not_header {cs : List Char}
    (h : startsHeader cs = false) : startsTok cs = false := by
  rcases cs with _ | ⟨a, _ | ⟨b, _ | ⟨c, _ | ⟨d, _ | ⟨e, rest⟩⟩⟩⟩⟩
  · rfl
  · rfl
  · rfl
  · rfl
  · rfl
  · rw [startsTok_eq_and, h]
    simp

theorem maskTokens_ne_nil {cs : List Char} (h : cs ≠ []) : maskTokens cs ≠ [] := by
  rcases cs with _ | ⟨a, _ | ⟨b, _ | ⟨c, _ | ⟨d, _ | ⟨e, rest⟩⟩⟩⟩⟩
  · exact absurd rfl h
  · simp [maskTokens]
  · simp [maskTokens]
  · simp [maskTokens]
  · simp [maskTokens]
  · by_cases hc : (a = 'x' && b = 'o' && c = 'x' && isKindChar d && e = '-'
        && tokCharHead rest) = true
    · simp [maskTokens, hc]
    · simp only [maskTokens]
      rw [if_neg hc]
      simp

theorem dropWhile_tok_append {suf post : List Char}
    (h : ∀ c ∈ suf, isTokChar c = true) (hp : tokCharHead post = false) :
    (suf ++ post).dropWhile isTokChar = post := by
  induction suf with
  | nil =>
    cases post with
    | nil => rfl
    | cons c t =>
      have : isTokChar c = false := by simpa [tokCharHead] using hp
      simp [List.dropWhile_cons, this]
  | cons c t ih =>
    simp [List.dropWhile_cons, h c (by simp),
      ih (fun c' hc' => h c' (by simp [hc']))]

/-- The compositional replacement law: a token occurrence bordered by
header-free text on the left and a non-token character on the right is
replaced by its five-character header followed by four asterisks, all
surrounding text passing through unchanged (further text masked recursively). -/
theorem maskTokens_mask_first {pre : List Char} {d : Char} {suf post : List Char}
    (hpre : hasHeader pre = false) (hd : isKindChar d = true)
    (hsuf : suf ≠ []) (hsufTok : ∀ c ∈ suf, isTokChar c = true)
    (hpost : tokCharHead post = false) :
    maskTokens (pre ++ ('x' :: 'o' :: 'x' :: d :: '-' :: (suf ++ post)))
      = pre ++ ('x' :: 'o' :: 'x' :: d :: '-' :: '*' :: '*' :: '*' :: '*'
          :: maskTokens post) := by
  induction pre with
  | nil =>
    obtain ⟨s0, suf', rfl⟩ : ∃ s0 suf', suf = s0 :: suf' := by
      cases suf with
      | nil => exact absurd rfl hsuf
      | cons a b => exact ⟨a, b, rfl⟩
    simp only [List.nil_append]
    rw [maskTokens_of_startsTok hd
      (by simpa [tokCharHead] using hsufTok s0 (by simp))]
    rw [dropWhile_tok_append hsufTok hpost]
  | cons c pre ih =>
    have hsplit : startsHeader (c :: pre) = false ∧ hasHeader pre = false := by
      simpa [hasHeader] using hpre
    have hst : startsTok (c
        :: (pre ++ ('x' :: 'o' :: 'x' :: d :: '-' :: (suf ++ post)))) = false := by
      rcases pre with _ | ⟨p1, _ | ⟨p2, _ | ⟨p3, prest⟩⟩⟩
      · exact startsTok_of_second (by decide) _
      · exact startsTok_of_fifth (by decide) _
      · exact startsTok_of_fourth (by decide) _
      · rcases prest with _ | ⟨p4, prest2⟩
        · exact startsTok_of_fifth (by decide) _
        · apply startsTok_false_of_not_header
          simp only [List.cons_append]
          rw [startsHeader_first5 c p1 p2 p3 p4 _ prest2]
          exact hsplit.1
    simp only [List.cons_append]
    rw [maskTokens_cons_of_not hst, ih hsplit.2]

theorem mask_shape_of_startsTok {cs : List Char} (h : startsTok cs = true) :
    ∃ d r, maskTokens cs = 'x' :: 'o' :: 'x' :: d :: '-' :: '*' :: '*' :: '*' :: '*' :: r
      ∧ isKindChar d = true := by
  rcases cs with _ | ⟨a, _ | ⟨b, _ | ⟨c, _ | ⟨d, _ | ⟨e, rest⟩⟩⟩⟩⟩ <;>
    simp only [startsTok, Bool.and_eq_true, decide_eq_true_eq, Bool.false_eq_true] at h
  obtain ⟨⟨⟨⟨⟨ha, hb⟩, hc⟩, hd⟩, he⟩, hr⟩ := h
  subst ha; subst hb; subst hc; subst he
  exact ⟨d, maskTokens (rest.dropWhile isTokChar), maskTokens_of_startsTok hd hr, hd⟩

theorem mask_head_not_tokChar {t : List Char} (h : tokCharHead t = false) :
    tokCharHead (maskTokens t) = false := by
  cases t with
  | nil => simp [maskTokens, tokCharHead]
  | cons c r =>
    have hc : isTokChar c = false := by simpa [tokCharHead] using h
    have hcx : ¬ c = 'x' := by
      intro hh
      rw [hh] at hc
      exact absurd hc (by decide)
    rw [maskTokens_cons_of_not (startsTok_of_ne_x hcx r)]
    simpa [tokCharHead] using hc

/-- Masking the tail never creates a fresh match at an unmatched head. -/
theorem startsTok_mask_of_not {c : Char} {t : List Char}
    (h : startsTok (c :: t) = false) :
    startsTok (c :: maskTokens t) = false := by
  by_cases hcx : c = 'x'
  case neg => exact startsTok_of_ne_x hcx _
  subst hcx
  by_cases hst : startsTok t = true
  · obtain ⟨d, r, hmt, hd⟩ := mask_shape_of_startsTok hst
    rw [hmt]
    exact startsTok_of_second (by decide) _
  · cases t with
    | nil => simp [maskTokens, startsTok]
    | cons t0 t1 =>
      rw [maskTokens_cons_of_not (by simpa using hst)]
      by_cases h0 : t0 = 'o'
      case neg => exact startsTok_of_second h0 _
      subst h0
      by_cases hst1 : startsTok t1 = true
      · obtain ⟨d, r, hmt, hd⟩ := mask_shape_of_startsTok hst1
        rw [hmt]
        exact startsTok_of_fourth (by decide) _
      · cases t1 with
        | nil => simp [maskTokens, startsTok]
        | cons t1h t2 =>
          rw [maskTokens_cons_of_not (by simpa using hst1)]
          by_cases h1 : t1h = 'x'
          case neg => exact startsTok_of_third h1 _
          subst h1
          by_cases hst2 : startsTok t2 = true
          · obtain ⟨d, r, hmt, hd⟩ := mask_shape_of_startsTok hst2
            rw [hmt]
            exact startsTok_of_fourth (by decide) _
          · cases t2 with
            | nil => simp [maskTokens, startsTok]
            | cons t2h t3 =>
              rw [maskTokens_cons_of_not (by simpa using hst2)]
              by_cases h2 : isKindChar t2h = true
              case neg => exact startsTok_of_fourth (by simpa using h2) _
              by_cases hst3 : startsTok t3 = true
              · obtain ⟨d, r, hmt, hd⟩ := mask_shape_of_startsTok hst3
                rw [hmt]
                exact startsTok_of_fifth (by decide) _
              · cases t3 with
                | nil => simp [maskTokens, startsTok]
                | cons t3h t4 =>
                  rw [maskTokens_cons_of_not (by simpa using hst3)]
                  by_cases h3 : t3h = '-'
                  case neg => exact startsTok_of_fifth h3 _
                  subst h3
                  have ht4 : tokCharHead t4 = false := by
                    simpa [startsTok, h2] using h
                  exact startsTok_of_sixth _ (mask_head_not_tokChar ht4)

/-- No position of the text carries a token match. -/
def tokFree : List Char → Bool
  | [] => true
  | c :: t => !startsTok (c :: t) && tokFree t

theorem maskTokens_of_tokFree : ∀ cs, tokFree cs = true → maskTokens cs = cs := by
  intro cs
  induction cs with
  | nil => intro _; simp [maskTokens]
  | cons c t ih =>
    intro h
    have h' : startsTok (c :: t) = false ∧ tokFree t = true := by
      simpa [tokFree] using h
    rw [maskTokens_cons_of_not h'.1, ih h'.2]

theorem maskTokens_tokFree_aux (n : Nat) :
    ∀ cs : List Char, cs.length ≤ n → tokFree (maskTokens cs) = true := by
  induction n with
  | zero =>
    intro cs h
    have : cs = [] := List.eq_nil_of_length_eq_zero (by omega)
    subst this
    simp [maskTokens, tokFree]
  | succ n ih =>
    intro cs hlen
    by_cases hst : startsTok cs = true
    · rcases cs with _ | ⟨a, _ | ⟨b, _ | ⟨c, _ | ⟨d, _ | ⟨e, rest⟩⟩⟩⟩⟩ <;>
        simp only [startsTok, Bool.and_eq_true, decide_eq_true_eq,
          Bool.false_eq_true] at hst
      obtain ⟨⟨⟨⟨⟨ha, hb⟩, hc⟩, hd⟩, he⟩, hr⟩ := hst
      subst ha; subst hb; subst hc; subst he
      rw [maskTokens_of_startsTok hd hr]
      obtain ⟨hdo, hdx, hdt⟩ := kindChar_props hd
      have htail : tokFree (maskTokens (rest.dropWhile isTokChar)) = true := by
        apply ih
        have hle := (List.dropWhile_sublist isTokChar (l := rest)).length_le
        simp only [List.length_cons] at hlen
        omega
      have p0 : startsTok ('x' :: 'o' :: 'x' :: d :: '-' :: '*' :: '*' :: '*' :: '*'
          :: maskTokens (rest.dropWhile isTokChar)) = false :=
        startsTok_of_sixth _ (by simp only [tokCharHead]; decide)
      have p2 : startsTok ('x' :: d :: '-' :: '*' :: '*' :: '*' :: '*'
          :: maskTokens (rest.dropWhile isTokChar)) = false :=
        startsTok_of_second hdo _
      simp [tokFree, p0, p2, htail, startsTok_of_ne_x (by decide : ¬ 'o' = 'x'),
        startsTok_of_ne_x hdx, startsTok_of_ne_x (by decide : ¬ '-' = 'x'),
        startsTok_of_ne_x (by decide : ¬ '*' = 'x')]
    · cases cs with
      | nil => simp [maskTokens, tokFree]
      | cons c t =>
        have hst' : startsTok (c :: t) = false := by simpa using hst
        rw [maskTokens_cons_of_not hst']
        have htail : tokFree (maskTokens t) = true := by
          apply ih
          simp only [List.length_cons] at hlen
          omega
        simp [tokFree, htail, startsTok_mask_of_not hst']

/-- The output of maskTokens never contains a token match. -/
theorem maskTokens_tokFree (cs : List Char) : tokFree (maskTokens cs) = true :=
  maskTokens_tokFree_aux cs.length cs (Nat.le_refl _)

/-- Masking is idempotent at the text level. -/
theorem maskTokens_idem (cs : List Char) :
    maskTokens (maskTokens cs) = maskTokens cs :=
  maskTokens_of_tokFree _ (maskTokens_tokFree cs)

theorem sanitizeBodyText_non_string (maskFlag : Bool) (v : JVal)
    (h : truthy v = false ∨ isStr v = false) :
    sanitizeBodyText maskFlag v = v := by
  unfold sanitizeBodyText
  rw [if_pos h]

theorem sanitizeBodyText_str {s : String} (hs : ¬ s = "") :
    sanitizeBodyText true (.str s) = .str (String.mk (maskTokens s.data)) := by
  unfold sanitizeBodyText maskTokenValue
  rw [if_neg (by simp [truthy, isStr, hs]), if_neg (by simp [truthy, isStr, hs])]
  rfl

theorem sanitizeBodyText_idem (v : JVal) :
    sanitizeBodyText true (sanitizeBodyText true v) = sanitizeBodyText true v := by
  by_cases hb : truthy v = false ∨ isStr v = false
  · rw [sanitizeBodyText_non_string _ _ hb, sanitizeBodyText_non_string _ _ hb]
  · obtain ⟨s, rfl⟩ : ∃ s, v = .str s := by
      cases v with
      | null => exact absurd (Or.inr rfl) hb
      | bool b => exact absurd (Or.inr rfl) hb
      | num n => exact absurd (Or.inr rfl) hb
      | str s => exact ⟨s, rfl⟩
      | arr xs => exact absurd (Or.inr rfl) hb
      | obj fs => exact absurd (Or.inr rfl) hb
    have hs : ¬ s = "" := by
      intro hh
      exact hb (Or.inl (by simp [truthy, hh]))
    rw [sanitizeBodyText_str hs]
    have hne : maskTokens s.data ≠ [] := by
      apply maskTokens_ne_nil
      intro hh
      apply hs
      cases s with
      | mk data => simp at hh; simp [hh]
    have hs2 : ¬ (String.mk (maskTokens s.data)) = "" := by
      intro hh
      apply hne
      simpa [String.ext_iff] using hh
    rw [sanitizeBodyText_str hs2]
    simp [maskTokens_idem]

/-! ## Endpoint extraction (endpointFromUrl, lines 352-356) -/

/-- The character class [A-Za-z0-9._-] of the endpoint regex. -/
def isEpChar (c : Char) : Bool :=
  c.isAlpha || c.isDigit || c = '.' || c = '_' || c = '-'

def epHeadOk : List Char → Bool
  | c :: _ => isEpChar c
  | [] => false

/-- A match of /\/api\/([A-Za-z0-9._-]+)/ at exactly this position: the
literal /api/ followed by at least one class character; the capture group is
the greedy class-character run. -/
def epAt : List Char → Option (List Char)
  | '/' :: 'a' :: 'p' :: 'i' :: '/' :: rest =>
    if epHeadOk rest then some (rest.takeWhile isEpChar) else none
  | _ => none

/-- Leftmost match of the endpoint regex over the whole string. -/
def epScan : List Char → Option (List Char)
  | [] => none
  | c :: t =>
    match epAt (c :: t) with
    | some v => some v
    | none => epScan t

/-- endpointFromUrl(url): null for a falsy url, else the regex capture.
Non-string url values are modelled as matchless (their JS string coercions,
such as "[object Object]" or decimal numerals, never contain /api/). -/
def endpointFromUrl (url : JVal) : Option String :=
  if truthy url = false then none
  else
    match url with
    | .str s => (epScan s.data).map String.mk
    | _ => none

/-! ## Form-value extraction (extractFormValue, lines 454-461) -/

def stripLit : List Char → List Char → Option (List Char)
  | [], cs => some cs
  | l :: ls, c :: cs => if c = l then stripLit ls cs else none
  | _ :: _, [] => none

/-- Consume \r?\n (greedy optional \r). -/
def crlf : List Char → Option (List Char)
  | '\r' :: '\n' :: t => some t
  | '\n' :: t => some t
  | _ => none

def notCRLF (c : Char) : Bool := !(c = '\r' || c = '\n')

/-- The multipart pattern name="user"\r?\n\r?\n([^\r\n]+) at this position. -/
def multipartAt (cs : List Char) : Option (List Char) :=
  match stripLit "name=\"user\"".data cs with
  | none => none
  | some r1 =>
    match crlf r1 with
    | none => none
    | some r2 =>
      match crlf r2 with
      | none => none
      | some r3 =>
        match r3 with
        | c :: _ => if notCRLF c then some (r3.takeWhile notCRLF) else none
        | [] => none

def multipartScan : List Char → Option (List Char)
  | [] => none
  | c :: t =>
    match multipartAt (c :: t) with
    | some v => some v
    | none => multipartScan t

def notAmpSep (c : Char) : Bool := !(c = '&' || c = ';' || c = '\n' || c = '\r')

/-- user=([^&;\n\r]+) at this position. -/
def userEqAt (cs : List Char) : Option (List Char) :=
  match stripLit "user=".data cs with
  | none => none
  | some r =>
    match r with
    | c :: _ => if notAmpSep c then some (r.takeWhile notAmpSep) else none
    | [] => none

/-- (?:^|[&;])user=([^&;\n\r]+) at positions after a separator. -/
def ampScan : List Char → Option (List Char)
  | [] => none
  | c :: t =>
    if c = '&' || c = ';' then
      match userEqAt t with
      | some v => some v
      | none => ampScan t
    else ampScan t

/-- Leftmost match of the urlencoded pattern: the start-of-string anchor
first, then each separator position left to right. -/
def formValueUser (body : List Char) : Option (List Char) :=
  match userEqAt body with
  | some v => some v
  | none => ampScan body

/-- extractFormValue(entry, "user") (the only key the script uses): null
unless the request bodyText is a non-empty string with a match. -/
def extractFormValueUser (entry : JVal) : Option String :=
  let req := if truthy entry then jget entry "request" else entry
  let body := if truthy req then jget req "bodyText" else req
  match body with
  | .str s =>
    if s = "" then none
    else
      match multipartScan s.data with
      | some v => some (String.mk v)
      | none => (formValueUser s.data).map String.mk
  | _ => none

/-! ## Payload Normalizers (lines 369-452) -/

/-- normFromPeopleItem(p): always an object (the caller checks only the id).
A null list item would make the JS throw on p.profile, aborting the item
loop with the entries so far; here property access on null yields null, which
discards the item the same way (no id). -/
def normFromPeopleItem (p : JVal) : URecord :=
  let profile := jor (jget p "profile") (.obj [])
  let fieldsRaw := jor (jget profile "fields") (.obj [])
  let fields := (jentries fieldsRaw).map (fun e =>
    (e.1, jor (if truthy e.2 then jget e.2 "value" else e.2) .null))
  [("id", jget p "id"),
   ("username", jor (jget p "username") (jget p "name")),
   ("name", jor (jget profile "display_name_normalized")
      (jor (jget profile "display_name") (jget p "name"))),
   ("real_name", jor (jget profile "real_name_normalized") (jget profile "real_name")),
   ("team", jor (jget profile "team") (jor (jget p "team")
      (if truthy (jget p "enterprise_user")
        then jget (jget p "enterprise_user") "team_id"
        else jget p "enterprise_user"))),
   ("is_bot", .bool (truthy (jget p "is_bot"))),
   ("deleted", .bool (truthy (jget p "deleted"))),
   ("is_restricted", .bool (truthy (jget p "is_restricted"))),
   ("is_ultra_restricted", .bool (truthy (jget p "is_ultra_restricted"))),
   ("phone", jor (jget p "phone") (jor (jget profile "phone") (.str ""))),
   ("email", jget profile "email"),
   ("first_name", jget profile "first_name"),
   ("last_name", jget profile "last_name"),
   ("image_original", jget profile "image_original"),
   ("image_48", jget profile "image_48"),
   ("image_72", jget profile "image_72"),
   ("image_192", jget profile "image_192"),
   ("image_512", jget profile "image_512"),
   ("fields", .obj fields)]

/-- normFromUsersInfoPayload(payload): null unless payload.user is truthy. -/
def normFromUsersInfoPayload (payload : JVal) : Option URecord :=
  let u := if truthy payload then jget payload "user" else payload
  if truthy u = false then none
  else
    let profile := jor (jget u "profile") (.obj [])
    some [("id", jget u "id"),
      ("username", jget u "name"),
      ("name", jor (jget profile "display_name_normalized")
        (jor (jget profile "display_name") (jget u "name"))),
      ("real_name", jor (jget profile "real_name_normalized")
        (jget profile "real_name")),
      ("team", jget u "team_id"),
      ("is_bot", .bool (truthy (jget u "is_bot"))),
      ("deleted", .bool (truthy (jget u "deleted"))),
      ("is_restricted", .bool (truthy (jget u "is_restricted"))),
      ("is_ultra_restricted", .bool (truthy (jget u "is_ultra_restricted"))),
      ("phone", jor (jget profile "phone") (.str "")),
      ("email", jget profile "email"),
      ("first_name", jget profile "first_name"),
      ("last_name", jget profile "last_name"),
      ("image_original", jget profile "image_original"),
      ("image_48", jget profile "image_48"),
      ("image_72", jget profile "image_72"),
      ("image_192", jget profile "image_192"),
      ("image_512", jget profile "image_512"),
      ("fields", if truthy (jget profile "fields")
        then .obj ((jentries (jget profile "fields")).map (fun e =>
          (e.1, if truthy e.2 then jget e.2 "value" else e.2)))
        else .null)]

/-- normFromUsersProfileGet(payload, entry): null unless payload.profile is
truthy; the subject id is recovered from the request body when the response
omits it. -/
def normFromUsersProfileGet (payload entry : JVal) : Option URecord :=
  let prof := if truthy payload then jget payload "profile" else payload
  if truthy prof = false then none
  else
    let idv := jor
      (match extractFormValueUser entry with
        | some s => .str s
        | none => .null)
      (jor (jget prof "user") (jget prof "user_id"))
    some [("id", idv),
      ("name", jor (jget prof "display_name_normalized") (jget prof "display_name")),
      ("real_name", jor (jget prof "real_name_normalized") (jget prof "real_name")),
      ("email", jget prof "email"),
      ("phone", jor (jget prof "phone") (.str "")),
      ("first_name", jget prof "first_name"),
      ("last_name", jget prof "last_name"),
      ("image_original", jget prof "image_original"),
      ("image_48", jget prof "image_48"),
      ("image_72", jget prof "image_72"),
      ("image_192", jget prof "image_192"),
      ("image_512", jget prof "image_512"),
      ("fields", if truthy (jget prof "fields")
        then .obj ((jentries (jget prof "fields")).map (fun e =>
          (e.1, if truthy e.2 then jget e.2 "value" else e.2)))
        else .null)]

/-! ## Entry Dispatcher (processEntryForUsers, lines 463-511) -/

/-- entry && entry.url -/
def entryUrl (entry : JVal) : JVal :=
  if truthy entry then jget entry "url" else entry

/-- entry && entry.response && entry.response.json -/
def entryPayload (entry : JVal) : JVal :=
  let resp := if truthy entry then jget entry "response" else entry
  if truthy resp then jget resp "json" else resp

/-- Iteration over payload.items / payload.members: the elements of an array;
anything else iterates nothing that survives (non-iterables throw into the
catch and strings yield id-less candidates, both adding zero records). -/
def jitems (v : JVal) : List JVal :=
  match v with
  | .arr xs => xs
  | _ => []

def knownEndpoints : List String :=
  ["search.modules.people", "users.info", "users.profile.get", "users.list"]

/-- processEntryForUsers(entry): guard on a structured payload, extract the
endpoint, dispatch to the matching normalizer, merge each keyed candidate,
and return the number of merged candidates. -/
def processEntryForUsers (entry : JVal) (users : RegState) : Nat × RegState :=
  let payload := entryPayload entry
  if truthy payload = false ∨ isObjType payload = false then (0, users)
  else
    match endpointFromUrl (entryUrl entry) with
    | none => (0, users)
    | some ep =>
      if ep = "search.modules.people" then
        (jitems (jor (jget payload "items") (.arr []))).foldl
          (fun acc p =>
            let u := normFromPeopleItem p
            if truthy (idVal u) then (acc.1 + 1, addOrMergeUser acc.2 u) else acc)
          (0, users)
      else if ep = "users.info" then
        match normFromUsersInfoPayload payload with
        | some u =>
          if truthy (idVal u) then (1, addOrMergeUser users u) else (0, users)
        | none => (0, users)
      else if ep = "users.profile.get" then
        match normFromUsersProfileGet payload entry with
        | some u =>
          if truthy (idVal u) then (1, addOrMergeUser users u) else (0, users)
        | none => (0, users)
      else if ep = "users.list" then
        (jitems (jor (jget payload "members") (.arr []))).foldl
          (fun acc m =>
            match normFromUsersInfoPayload (.obj [("user", m)]) with
            | some u =>
              if truthy (idVal u) then (acc.1 + 1, addOrMergeUser acc.2 u) else acc
            | none => acc)
          (0, users)
      else (0, users)

/-! ## Bounded Log Buffer (trimLogs lines 104-112, onRecord lines 128-150) -/

/-- trimLogs(): when the cap is positive and exceeded, splice(0, removeCount)
drops exactly the oldest excess entries from the head. -/
def trimLogs (maxLogSize : Int) (logs : List JVal) : List JVal :=
  if 0 < maxLogSize ∧ maxLogSize < (logs.length : Int) then
    logs.drop (logs.length - maxLogSize.toNat)
  else logs

/-- Runtime configuration (the cfg literal, as far as the claims need it). -/
structure Config where
  maxLogSize : Int
  excludeHeaders : List String
  maskTokens : Bool
  userCaptureEnabled : Bool
  includeFilters : Option (List (String → Bool))
  verbose : Bool

/-- The mutable in-memory stores (logs array and users Map). -/
structure CaptureState where
  logs : List JVal
  users : RegState

/-- onRecord(entry): push to the log tail, trim, then user capture when
enabled.  The surrounding try/catch cannot fire in this model because every
step is total. -/
def onRecord (cfg : Config) (st : CaptureState) (entry : JVal) : CaptureState :=
  { logs := trimLogs cfg.maxLogSize (st.logs ++ [entry])
    users :=
      if cfg.userCaptureEnabled then (processEntryForUsers entry st.users).2
      else st.users }

theorem onRecord_logs (cfg : Config) (st : CaptureState) (entry : JVal) :
    (onRecord cfg st entry).logs = trimLogs cfg.maxLogSize (st.logs ++ [entry]) := rfl

/-- The cap is enforced after every append while positive. -/
theorem trimLogs_length_le (maxLogSize : Int) (logs : List JVal)
    (h : 0 < maxLogSize) :
    ((trimLogs maxLogSize logs).length : Int) ≤ maxLogSize := by
  unfold trimLogs
  by_cases hc : maxLogSize < (logs.length : Int)
  · rw [if_pos ⟨h, hc⟩]
    rw [List.length_drop]
    omega
  · rw [if_neg (by tauto)]
    omega

/-- Whatever happens, the retained buffer is a suffix of the appended list:
eviction only ever removes the oldest entries at the head. -/
theorem trimLogs_drop (maxLogSize : Int) (logs : List JVal) :
    trimLogs maxLogSize logs
      = logs.drop (if 0 < maxLogSize ∧ maxLogSize < (logs.length : Int)
          then logs.length - maxLogSize.toNat else 0) := by
  unfold trimLogs
  by_cases hc : 0 < maxLogSize ∧ maxLogSize < (logs.length : Int)
  · rw [if_pos hc, if_pos hc]
  · rw [if_neg hc, if_neg hc]
    rfl

/-- Capacity 0 or negative disables trimming entirely. -/
theorem trimLogs_nonpos (maxLogSize : Int) (logs : List JVal)
    (h : maxLogSize ≤ 0) : trimLogs maxLogSize logs = logs := by
  unfold trimLogs
  rw [if_neg (by omega)]

/-! ## NDJSON export: a model of JSON.stringify (character-list level)

JSON.stringify on the values this script stores: objects print their fields
in insertion order, strings escape the quote, backslash and control
characters (shorthand escapes for backspace, form feed, newline, carriage
return, tab; lowercase u-escapes for the rest), integers print in decimal.
JS numbers are modelled as integers (see the file header). -/

def hexDigit (n : Nat) : Char :=
  match n with
  | 0 => '0' | 1 => '1' | 2 => '2' | 3 => '3' | 4 => '4'
  | 5 => '5' | 6 => '6' | 7 => '7' | 8 => '8' | 9 => '9'
  | 10 => 'a' | 11 => 'b' | 12 => 'c' | 13 => 'd' | 14 => 'e' | _ => 'f'

def escChar (c : Char) : List Char :=
  if c = '"' then ['\\', '"']
  else if c = '\\' then ['\\', '\\']
  else if c = '\x08' then ['\\', 'b']
  else if c = '\x0c' then ['\\', 'f']
  else if c = '\n' then ['\\', 'n']
  else if c = '\r' then ['\\', 'r']
  else if c = '\t' then ['\\', 't']
  else if c.toNat < 32 then
    ['\\', 'u', '0', '0', hexDigit (c.toNat / 16), hexDigit (c.toNat % 16)]
  else [c]

def escList : List Char → List Char
  | [] => []
  | c :: t => escChar c ++ escList t

/-- A JSON string literal, quotes included. -/
def serStr (s : String) : List Char := '"' :: (escList s.data ++ ['"'])

/-- A JSON integer numeral. -/
def serInt (i : Int) : List Char :=
  if i < 0 then '-' :: natDigits (-i).toNat else natDigits i.toNat

mutual

def serV : JVal → List Char
  | .null => List.cons 'n' ['u', 'l', 'l']
  | .bool true => List.cons 't' ['r', 'u', 'e']
  | .bool false => List.cons 'f' ['a', 'l', 's', 'e']
  | .num i => serInt i
  | .str s => serStr s
  | .arr xs => '[' :: (serItems xs ++ [']'])
  | .obj fs => '{' :: (serFields fs ++ ['}'])

def serItems : List JVal → List Char
  | [] => []
  | [x] => serV x
  | x :: y :: t => serV x ++ ',' :: serItems (y :: t)

def serFields : List (String × JVal) → List Char
  | [] => []
  | [(k, v)] => serStr k ++ ':' :: serV v
  | (k, v) :: y :: t => serStr k ++ ':' :: serV v ++ ',' :: serFields (y :: t)

end

/-! ## A model of JSON.parse (restricted to the canonical, whitespace-free
text emitted by the serializer above; numbers are integers, hex escapes
accept both cases). -/

def dval (c : Char) : Nat := c.toNat - 48

def parseDigitsGo : List Char → Nat → Nat × List Char
  | [], a => (a, [])
  | c :: r, a => if c.isDigit then parseDigitsGo r (10 * a + dval c) else (a, c :: r)

/-- A non-empty greedy run of decimal digits. -/
def parseNat : List Char → Option (Nat × List Char)
  | [] => none
  | c :: r => if c.isDigit then some (parseDigitsGo r (dval c)) else none

def isHexChar (c : Char) : Bool :=
  c.isDigit || ('a' ≤ c && c ≤ 'f') || ('A' ≤ c && c ≤ 'F')

def hexVal (c : Char) : Nat :=
  if c.isDigit then c.toNat - 48
  else if 'a' ≤ c then c.toNat - 87
  else c.toNat - 55

/-- The body of a JSON string literal after the opening quote, accumulator
reversed; returns the decoded string and the text after the closing quote. -/
def parseStrGo : List Char → List Char → Option (String × List Char)
  | [], _ => none
  | '"' :: r, acc => some (String.mk acc.reverse, r)
  | '\\' :: 'u' :: h1 :: h2 :: h3 :: h4 :: r, acc =>
    if isHexChar h1 && isHexChar h2 && isHexChar h3 && isHexChar h4 then
      parseStrGo r (Char.ofNat
        (((hexVal h1 * 16 + hexVal h2) * 16 + hexVal h3) * 16 + hexVal h4) :: acc)
    else none
  | '\\' :: e :: r, acc =>
    if e = '"' then parseStrGo r ('"' :: acc)
    else if e = '\\' then parseStrGo r ('\\' :: acc)
    else if e = '/' then parseStrGo r ('/' :: acc)
    else if e = 'n' then parseStrGo r ('\n' :: acc)
    else if e = 'r' then parseStrGo r ('\r' :: acc)
    else if e = 't' then parseStrGo r ('\t' :: acc)
    else if e = 'b' then parseStrGo r ('\x08' :: acc)
    else if e = 'f' then parseStrGo r ('\x0c' :: acc)
    else none
  | ['\\'], _ => none
  | c :: r, acc => parseStrGo r (c :: acc)

mutual

def parseV : Nat → List Char → Option (JVal × List Char)
  | 0, _ => none
  | _ + 1, [] => none
  | f + 1, c :: r =>
    if c = 'n' then
      if r.take 3 = ['u', 'l', 'l'] then some (.null, r.drop 3) else none
    else if c = 't' then
      if r.take 3 = ['r', 'u', 'e'] then some (.bool true, r.drop 3) else none
    else if c = 'f' then
      if r.take 4 = ['a', 'l', 's', 'e'] then some (.bool false, r.drop 4) else none
    else if c = '"' then
      match parseStrGo r [] with
      | some (s, r2) => some (.str s, r2)
      | none => none
    else if c = '[' then
      match parseItems f r with
      | some (vs, r2) => some (.arr vs, r2)
      | none => none
    else if c = '{' then
      match parseFields f r with
      | some (fs, r2) => some (.obj fs, r2)
      | none => none
    else if c = '-' then
      match parseNat r with
      | some (n, r2) => some (.num (-(n : Int)), r2)
      | none => none
    else if c.isDigit then
      match parseNat (c :: r) with
      | some (n, r2) => some (.num (n : Int), r2)
      | none => none
    else none

def parseItems : Nat → List Char → Option (List JVal × List Char)
  | 0, _ => none
  | f + 1, cs =>
    if cs.head? = some ']' then some ([], cs.tail)
    else
      match parseV f cs with
      | none => none
      | some (v, r) =>
        if r.head? = some ',' then
          match parseItems f r.tail with
          | some (vs, r3) => some (v :: vs, r3)
          | none => none
        else if r.head? = some ']' then some ([v], r.tail)
        else none

def parseFields : Nat → List Char → Option (List (String × JVal) × List Char)
  | 0, _ => none
  | f + 1, cs =>
    if cs.head? = some '}' then some ([], cs.tail)
    else if cs.head? = some '"' then
      match parseStrGo cs.tail [] with
      | none => none
      | some (k, r1) =>
        if r1.head? = some ':' then
          match parseV f r1.tail with
          | none => none
          | some (v, r2) =>
            if r2.head? = some ',' then
              match parseFields f r2.tail with
              | some (fs, r3) => some ((k, v) :: fs, r3)
              | none => none
            else if r2.head? = some '}' then some ([(k, v)], r2.tail)
            else none
        else none
    else none

end

/-- JSON.parse of one line: full consumption, fuel amply above the nesting
depth of anything the serializer can emit at this length. -/
def jsonParse (s : String) : Option JVal :=
  match parseV (s.data.length + 1) s.data with
  | some (v, []) => some v
  | _ => none

/-! ### Decimal numeral facts -/

theorem natDigitsAux_lt {n : Nat} (h : n < 10) (acc : List Char) :
    natDigitsAux n acc = digitChar n :: acc := by
  rw [natDigitsAux]
  simp [h]

theorem natDigitsAux_ge {n : Nat} (h : ¬ n < 10) (acc : List Char) :
    natDigitsAux n acc = natDigitsAux (n / 10) (digitChar (n % 10) :: acc) := by
  rw [natDigitsAux]
  simp [h]

theorem natDigitsAux_shift : ∀ (n : Nat) (acc : List Char),
    natDigitsAux n acc = natDigitsAux n [] ++ acc := by
  intro n
  induction n using Nat.strong_induction_on with
  | _ n ih =>
    intro acc
    by_cases h : n < 10
    · rw [natDigitsAux_lt h, natDigitsAux_lt h]
      simp
    · rw [natDigitsAux_ge h, natDigitsAux_ge h,
        ih (n / 10) (Nat.div_lt_self (by omega) (by omega)) (digitChar (n % 10) :: acc),
        ih (n / 10) (Nat.div_lt_self (by omega) (by omega)) [digitChar (n % 10)]]
      simp

theorem digitChar_isDigit {n : Nat} (h : n < 10) : (digitChar n).isDigit = true := by
  interval_cases n <;> decide

theorem dval_digitChar {n : Nat} (h : n < 10) : dval (digitChar n) = n := by
  interval_cases n <;> decide

theorem natDigits_digits : ∀ n : Nat, ∀ c ∈ natDigits n, c.isDigit = true := by
  intro n
  induction n using Nat.strong_induction_on with
  | _ n ih =>
    intro c hc
    unfold natDigits at hc
    by_cases h : n < 10
    · rw [natDigitsAux_lt h] at hc
      simp at hc
      rw [hc]
      exact digitChar_isDigit h
    · rw [natDigitsAux_ge h, natDigitsAux_shift (n / 10) [digitChar (n % 10)]] at hc
      rcases List.mem_append.mp hc with hc' | hc'
      · exact ih (n / 10) (Nat.div_lt_self (by omega) (by omega)) c hc'
      · simp at hc'
        rw [hc']
        exact digitChar_isDigit (Nat.mod_lt n (by omega))

theorem natDigits_head : ∀ n : Nat, ∃ d t, natDigits n = d :: t ∧ d.isDigit = true := by
  intro n
  induction n using Nat.strong_induction_on with
  | _ n ih =>
    unfold natDigits
    by_cases h : n < 10
    · exact ⟨digitChar n, [], by rw [natDigitsAux_lt h], digitChar_isDigit h⟩
    · rw [natDigitsAux_ge h, natDigitsAux_shift]
      obtain ⟨d, t, hdt, hd⟩ := ih (n / 10) (Nat.div_lt_self (by omega) (by omega))
      unfold natDigits at hdt
      rw [hdt]
      exact ⟨d, t ++ [digitChar (n % 10)], by simp, hd⟩

def digitStep (a : Nat) (c : Char) : Nat := 10 * a + dval c

theorem parseDigitsGo_spec : ∀ (ds : List Char) (a : Nat) (rest : List Char),
    (∀ c ∈ ds, c.isDigit = true) →
    (match rest.head? with | some c => c.isDigit = false | none => True) →
    parseDigitsGo (ds ++ rest) a = (ds.foldl digitStep a, rest) := by
  intro ds
  induction ds with
  | nil =>
    intro a rest _ hrest
    cases rest with
    | nil => rfl
    | cons c t =>
      simp only [List.head?] at hrest
      simp [parseDigitsGo, hrest]
  | cons d ds ih =>
    intro a rest hds hrest
    have hd := hds d (by simp)
    simp only [List.cons_append, parseDigitsGo, hd, if_true]
    rw [show ds.append rest = ds ++ rest from rfl]
    rw [ih _ rest (fun c hc => hds c (by simp [hc])) hrest]
    rfl

theorem foldl_digitStep_natDigits : ∀ (n : Nat) (a : Nat),
    (natDigits n).foldl digitStep a = a * 10 ^ (natDigits n).length + n := by
  intro n
  induction n using Nat.strong_induction_on with
  | _ n ih =>
    intro a
    unfold natDigits
    by_cases h : n < 10
    · rw [natDigitsAux_lt h]
      simp [digitStep, dval_digitChar h]
      omega
    · rw [natDigitsAux_ge h, natDigitsAux_shift]
      rw [List.foldl_append]
      rw [show natDigitsAux (n / 10) [] = natDigits (n / 10) from rfl]
      rw [ih (n / 10) (Nat.div_lt_self (by omega) (by omega))]
      simp [digitStep, dval_digitChar (Nat.mod_lt n (by omega : 0 < 10))]
      rw [Nat.pow_succ]
      have hmod := Nat.div_add_mod n 10
      ring_nf
      omega

theorem parseNat_natDigits (n : Nat) (rest : List Char)
    (hrest : match rest.head? with | some c => c.isDigit = false | none => True) :
    parseNat (natDigits n ++ rest) = some (n, rest) := by
  obtain ⟨d, t, hdt, hd⟩ := natDigits_head n
  rw [hdt]
  simp only [List.cons_append, parseNat, hd, if_true]
  have hts : ∀ c ∈ t, c.isDigit = true := by
    intro c hc
    exact natDigits_digits n c (by rw [hdt]; simp [hc])
  rw [parseDigitsGo_spec t (dval d) rest hts hrest]
  have hval : (d :: t).foldl digitStep 0 = n := by
    have hfold := foldl_digitStep_natDigits n 0
    rw [hdt] at hfold
    simpa using hfold
  simp only [List.foldl_cons] at hval
  have hstep : digitStep 0 d = dval d := by simp [digitStep]
  rw [hstep] at hval
  rw [hval]

/-! ### String escape round trip -/

theorem hexDigit_isHex {n : Nat} (h : n < 16) : isHexChar (hexDigit n) = true := by
  interval_cases n <;> decide

theorem hexVal_hexDigit {n : Nat} (h : n < 16) : hexVal (hexDigit n) = n := by
  interval_cases n <;> decide

theorem parseStrGo_other {c : Char} (h1 : ¬ c = '"') (h2 : ¬ c = '\\')
    (r acc : List Char) : parseStrGo (c :: r) acc = parseStrGo r (c :: acc) := by
  rw [parseStrGo.eq_6] <;> simp_all

theorem parseStrGo_quote (r acc : List Char) :
    parseStrGo ('"' :: r) acc = some (String.mk acc.reverse, r) := by
  rw [parseStrGo]

theorem parseStrGo_escQ (r acc : List Char) :
    parseStrGo ('\\' :: '"' :: r) acc = parseStrGo r ('"' :: acc) := by
  rw [parseStrGo] <;>
    first
      | (intro a1 a2 a3 a4 r3 hu hr
         exact absurd hu (by decide))
      | simp

theorem parseStrGo_escB (r acc : List Char) :
    parseStrGo ('\\' :: '\\' :: r) acc = parseStrGo r ('\\' :: acc) := by
  rw [parseStrGo] <;>
    first
      | (intro a1 a2 a3 a4 r3 hu hr
         exact absurd hu (by decide))
      | simp

theorem parseStrGo_escN (r acc : List Char) :
    parseStrGo ('\\' :: 'n' :: r) acc = parseStrGo r ('\n' :: acc) := by
  rw [parseStrGo] <;>
    first
      | (intro a1 a2 a3 a4 r3 hu hr
         exact absurd hu (by decide))
      | simp

theorem parseStrGo_escR (r acc : List Char) :
    parseStrGo ('\\' :: 'r' :: r) acc = parseStrGo r ('\r' :: acc) := by
  rw [parseStrGo] <;>
    first
      | (intro a1 a2 a3 a4 r3 hu hr
         exact absurd hu (by decide))
      | simp

theorem parseStrGo_escT (r acc : List Char) :
    parseStrGo ('\\' :: 't' :: r) acc = parseStrGo r ('\t' :: acc) := by
  rw [parseStrGo] <;>
    first
      | (intro a1 a2 a3 a4 r3 hu hr
         exact absurd hu (by decide))
      | simp

theorem parseStrGo_escBS (r acc : List Char) :
    parseStrGo ('\\' :: 'b' :: r) acc = parseStrGo r ('\x08' :: acc) := by
  rw [parseStrGo] <;>
    first
      | (intro a1 a2 a3 a4 r3 hu hr
         exact absurd hu (by decide))
      | simp

theorem parseStrGo_escFF (r acc : List Char) :
    parseStrGo ('\\' :: 'f' :: r) acc = parseStrGo r ('\x0c' :: acc) := by
  rw [parseStrGo] <;>
    first
      | (intro a1 a2 a3 a4 r3 hu hr
         exact absurd hu (by decide))
      | simp

theorem parseStrGo_escU (h1 h2 h3 h4 : Char) (r acc : List Char) :
    parseStrGo ('\\' :: 'u' :: h1 :: h2 :: h3 :: h4 :: r) acc
      = (if (isHexChar h1 && isHexChar h2 && isHexChar h3 && isHexChar h4) = true then
          parseStrGo r (Char.ofNat
            (((hexVal h1 * 16 + hexVal h2) * 16 + hexVal h3) * 16 + hexVal h4) :: acc)
        else none) := by
  rw [parseStrGo]

theorem parseStrGo_escList : ∀ (cs acc rest : List Char),
    parseStrGo (escList cs ++ '"' :: rest) acc
      = some (String.mk (acc.reverse ++ cs), rest) := by
  intro cs
  induction cs with
  | nil =>
    intro acc rest
    show parseStrGo ('"' :: rest) acc = _
    rw [parseStrGo_quote]
    simp
  | cons c cs ih =>
    intro acc rest
    show parseStrGo ((escChar c ++ escList cs) ++ '"' :: rest) acc = _
    rw [List.append_assoc]
    have hres : parseStrGo (escChar c ++ (escList cs ++ '"' :: rest)) acc
        = parseStrGo (escList cs ++ '"' :: rest) (c :: acc) := by
      unfold escChar
      by_cases h1 : c = '"'
      · simp only [h1, if_true, List.cons_append, List.nil_append]
        rw [parseStrGo_escQ]
      · rw [if_neg h1]
        by_cases h2 : c = '\\'
        · simp only [h2, if_true, List.cons_append, List.nil_append]
          rw [parseStrGo_escB]
        · rw [if_neg h2]
          by_cases h3 : c = '\x08'
          · simp only [h3, if_true, List.cons_append, List.nil_append]
            rw [parseStrGo_escBS]
          · rw [if_neg h3]
            by_cases h4 : c = '\x0c'
            · simp only [h4, if_true, List.cons_append, List.nil_append]
              rw [parseStrGo_escFF]
            · rw [if_neg h4]
              by_cases h5 : c = '\n'
              · simp only [h5, if_true, List.cons_append, List.nil_append]
                rw [parseStrGo_escN]
              · rw [if_neg h5]
                by_cases h6 : c = '\r'
                · simp only [h6, if_true, List.cons_append, List.nil_append]
                  rw [parseStrGo_escR]
                · rw [if_neg h6]
                  by_cases h7 : c = '\t'
                  · simp only [h7, if_true, List.cons_append, List.nil_append]
                    rw [parseStrGo_escT]
                  · rw [if_neg h7]
                    by_cases h8 : c.toNat < 32
                    · rw [if_pos h8]
                      have hhi : c.toNat / 16 < 16 := by omega
                      have hlo : c.toNat % 16 < 16 := by omega
                      simp only [List.cons_append, List.nil_append]
                      rw [parseStrGo_escU]
                      rw [if_pos (by
                        rw [hexDigit_isHex hhi, hexDigit_isHex hlo]
                        decide)]
                      have hv : ((hexVal '0' * 16 + hexVal '0') * 16
                            + hexVal (hexDigit (c.toNat / 16))) * 16
                            + hexVal (hexDigit (c.toNat % 16)) = c.toNat := by
                        rw [hexVal_hexDigit hhi, hexVal_hexDigit hlo]
                        have h0 : hexVal '0' = 0 := by decide
                        rw [h0]
                        omega
                      rw [hv, Char.ofNat_toNat]
                    · rw [if_neg h8]
                      simp only [List.cons_append, List.nil_append]
                      exact parseStrGo_other h1 h2 _ _
    rw [hres, ih (c :: acc) rest]
    simp

/-! ### Serialized shape facts -/

/-- The characters that can open a serialized JSON value. -/
def goodStart (c : Char) : Prop :=
  c = 'n' ∨ c = 't' ∨ c = 'f' ∨ c = '"' ∨ c = '[' ∨ c = '{' ∨ c = '-' ∨ c.isDigit = true

theorem serInt_head (i : Int) : ∃ c t, serInt i = c :: t ∧ goodStart c := by
  unfold serInt
  by_cases h : i < 0
  · rw [if_pos h]
    exact ⟨'-', _, rfl, by simp [goodStart]⟩
  · rw [if_neg h]
    obtain ⟨d, t, hdt, hd⟩ := natDigits_head i.toNat
    exact ⟨d, t, hdt, by simp [goodStart, hd]⟩

theorem serV_head (v : JVal) : ∃ c t, serV v = c :: t ∧ goodStart c := by
  cases v with
  | null => exact ⟨'n', _, rfl, by simp [goodStart]⟩
  | bool b =>
    cases b
    · exact ⟨'f', _, rfl, by simp [goodStart]⟩
    · exact ⟨'t', _, rfl, by simp [goodStart]⟩
  | num i =>
    obtain ⟨c, t, hct, hc⟩ := serInt_head i
    exact ⟨c, t, by rw [serV, hct], hc⟩
  | str s => exact ⟨'"', _, rfl, by simp [goodStart]⟩
  | arr xs => exact ⟨'[', _, rfl, by simp [goodStart]⟩
  | obj fs => exact ⟨'{', _, rfl, by simp [goodStart]⟩

theorem goodStart_ne_rbracket {c : Char} (h : goodStart c) : ¬ c = ']' := by
  rcases h with h | h | h | h | h | h | h | h
  all_goals first
    | (subst h; decide)
    | (intro hh; rw [hh] at h; exact absurd h (by decide))

theorem goodStart_ne_rbrace {c : Char} (h : goodStart c) : ¬ c = '}' := by
  rcases h with h | h | h | h | h | h | h | h
  all_goals first
    | (subst h; decide)
    | (intro hh; rw [hh] at h; exact absurd h (by decide))

theorem digit_notSpecial {c : Char} (h : c.isDigit = true) :
    ¬ c = 'n' ∧ ¬ c = 't' ∧ ¬ c = 'f' ∧ ¬ c = '"' ∧ ¬ c = '[' ∧ ¬ c = '{' ∧ ¬ c = '-' := by
  refine ⟨?_, ?_, ?_, ?_, ?_, ?_, ?_⟩
  all_goals intro hh; rw [hh] at h; exact absurd h (by decide)

/-! ### No newline in serialized output -/

theorem digitChar_ne_nl (n : Nat) : ¬ digitChar n = '\n' := by
  unfold digitChar
  split <;> decide

theorem hexDigit_ne_nl (n : Nat) : ¬ hexDigit n = '\n' := by
  unfold hexDigit
  split <;> decide

theorem natDigits_ne_nl (n : Nat) : ∀ c ∈ natDigits n, ¬ c = '\n' := by
  intro c hc hh
  have hd := natDigits_digits n c hc
  rw [hh] at hd
  exact absurd hd (by decide)

theorem serInt_ne_nl (i : Int) : ∀ c ∈ serInt i, ¬ c = '\n' := by
  intro c hc
  unfold serInt at hc
  by_cases h : i < 0
  · rw [if_pos h] at hc
    rcases List.mem_cons.mp hc with hc' | hc'
    · rw [hc']; decide
    · exact natDigits_ne_nl _ c hc'
  · rw [if_neg h] at hc
    exact natDigits_ne_nl _ c hc

theorem escChar_ne_nl (c : Char) : ∀ c' ∈ escChar c, ¬ c' = '\n' := by
  intro c' hc'
  unfold escChar at hc'
  by_cases h1 : c = '"'
  · rw [if_pos h1] at hc'
    simp at hc'
    rcases hc' with hh | hh <;> (subst hh; decide)
  · rw [if_neg h1] at hc'
    by_cases h2 : c = '\\'
    · rw [if_pos h2] at hc'
      simp at hc'
      subst hc'
      decide
    · rw [if_neg h2] at hc'
      by_cases h3 : c = '\x08'
      · rw [if_pos h3] at hc'
        simp at hc'
        rcases hc' with hh | hh <;> (subst hh; decide)
      · rw [if_neg h3] at hc'
        by_cases h4 : c = '\x0c'
        · rw [if_pos h4] at hc'
          simp at hc'
          rcases hc' with hh | hh <;> (subst hh; decide)
        · rw [if_neg h4] at hc'
          by_cases h5 : c = '\n'
          · rw [if_pos h5] at hc'
            simp at hc'
            rcases hc' with hh | hh <;> (subst hh; decide)
          · rw [if_neg h5] at hc'
            by_cases h6 : c = '\r'
            · rw [if_pos h6] at hc'
              simp at hc'
              rcases hc' with hh | hh <;> (subst hh; decide)
            · rw [if_neg h6] at hc'
              by_cases h7 : c = '\t'
              · rw [if_pos h7] at hc'
                simp at hc'
                rcases hc' with hh | hh <;> (subst hh; decide)
              · rw [if_neg h7] at hc'
                by_cases h8 : c.toNat < 32
                · rw [if_pos h8] at hc'
                  simp only [List.mem_cons, List.not_mem_nil, or_false] at hc'
                  rcases hc' with hh | hh | hh | hh | hh | hh
                  · rw [hh]; decide
                  · rw [hh]; decide
                  · rw [hh]; decide
                  · rw [hh]; decide
                  · rw [hh]; exact hexDigit_ne_nl _
                  · rw [hh]; exact hexDigit_ne_nl _
                · rw [if_neg h8] at hc'
                  simp only [List.mem_cons, List.not_mem_nil, or_false] at hc'
                  rw [hc']
                  intro hh
                  rw [hh] at h8
                  exact h8 (by decide)

theorem escList_ne_nl (cs : List Char) : ∀ c' ∈ escList cs, ¬ c' = '\n' := by
  induction cs with
  | nil => intro c' hc'; simp [escList] at hc'
  | cons c t ih =>
    intro c' hc'
    rcases List.mem_append.mp (by simpa [escList] using hc') with h | h
    · exact escChar_ne_nl c c' h
    · exact ih c' h

theorem serStr_ne_nl (s : String) : ∀ c ∈ serStr s, ¬ c = '\n' := by
  intro c hc
  unfold serStr at hc
  rcases List.mem_cons.mp hc with h | h
  · rw [h]; decide
  · rcases List.mem_append.mp h with h' | h'
    · exact escList_ne_nl _ c h'
    · simp at h'
      rw [h']; decide

theorem serItems_ne_nl (xs : List JVal)
    (h : ∀ x ∈ xs, ∀ c ∈ serV x, ¬ c = '\n') :
    ∀ c ∈ serItems xs, ¬ c = '\n' := by
  induction xs with
  | nil => intro c hc; simp [serItems] at hc
  | cons x t ih =>
    cases t with
    | nil =>
      intro c hc
      exact h x (by simp) c (by simpa [serItems] using hc)
    | cons y t2 =>
      intro c hc
      rw [show serItems (x :: y :: t2) = serV x ++ ',' :: serItems (y :: t2) from rfl] at hc
      rcases List.mem_append.mp hc with h' | h'
      · exact h x (by simp) c h'
      · rcases List.mem_cons.mp h' with h'' | h''
        · rw [h'']; decide
        · exact ih (fun x' hx' => h x' (by simp [hx'])) c h''

theorem serFields_ne_nl (fs : List (String × JVal))
    (h : ∀ p ∈ fs, ∀ c ∈ serV p.2, ¬ c = '\n') :
    ∀ c ∈ serFields fs, ¬ c = '\n' := by
  induction fs with
  | nil => intro c hc; simp [serFields] at hc
  | cons p t ih =>
    obtain ⟨k, v⟩ := p
    cases t with
    | nil =>
      intro c hc
      rw [show serFields [(k, v)] = serStr k ++ ':' :: serV v from rfl] at hc
      rcases List.mem_append.mp hc with h' | h'
      · exact serStr_ne_nl k c h'
      · rcases List.mem_cons.mp h' with h'' | h''
        · rw [h'']; decide
        · exact h (k, v) (by simp) c h''
    | cons q t2 =>
      intro c hc
      rw [show serFields ((k, v) :: q :: t2)
          = serStr k ++ ':' :: serV v ++ ',' :: serFields (q :: t2) from rfl] at hc
      rcases List.mem_append.mp hc with h' | h'
      · rcases List.mem_append.mp h' with h2 | h2
        · exact serStr_ne_nl k c h2
        · rcases List.mem_cons.mp h2 with h3 | h3
          · rw [h3]; decide
          · exact h (k, v) (by simp) c h3
      · rcases List.mem_cons.mp h' with h'' | h''
        · rw [h'']; decide
        · exact ih (fun p' hp' => h p' (by simp [hp'])) c h''

theorem serV_ne_nl : ∀ v : JVal, ∀ c ∈ serV v, ¬ c = '\n' := by
  have H : ∀ (n : Nat) (v : JVal), sizeOf v ≤ n → ∀ c ∈ serV v, ¬ c = '\n' := by
    intro n
    induction n with
    | zero => intro v h; cases v <;> simp_arith at h
    | succ n ih =>
      intro v hv c hc
      cases v with
      | null =>
        rw [show serV .null = ['n', 'u', 'l', 'l'] from rfl] at hc
        fin_cases hc <;> decide
      | bool b =>
        cases b
        · rw [show serV (.bool false) = ['f', 'a', 'l', 's', 'e'] from rfl] at hc
          fin_cases hc <;> decide
        · rw [show serV (.bool true) = ['t', 'r', 'u', 'e'] from rfl] at hc
          fin_cases hc <;> decide
      | num i => exact serInt_ne_nl i c hc
      | str s => exact serStr_ne_nl s c hc
      | arr xs =>
        rw [show serV (.arr xs) = '[' :: (serItems xs ++ [']']) from rfl] at hc
        rcases List.mem_cons.mp hc with h | h
        · rw [h]; decide
        · rcases List.mem_append.mp h with h' | h'
          · refine serItems_ne_nl xs ?_ c h'
            intro x hx c' hc'
            refine ih x ?_ c' hc'
            have h1 : sizeOf x < sizeOf xs := List.sizeOf_lt_of_mem hx
            have h2 : sizeOf (JVal.arr xs) = 1 + sizeOf xs := by simp
            omega
          · simp at h'
            rw [h']; decide
      | obj fs =>
        rw [show serV (.obj fs) = '{' :: (serFields fs ++ ['}']) from rfl] at hc
        rcases List.mem_cons.mp hc with h | h
        · rw [h]; decide
        · rcases List.mem_append.mp h with h' | h'
          · refine serFields_ne_nl fs ?_ c h'
            intro p hp c' hc'
            refine ih p.2 ?_ c' hc'
            have h1 : sizeOf p < sizeOf fs := List.sizeOf_lt_of_mem hp
            have h2 : sizeOf (JVal.obj fs) = 1 + sizeOf fs := by simp
            have h3 : sizeOf p.2 < sizeOf p := by
              obtain ⟨k, v⟩ := p; simp_arith
            omega
          · simp at h'
            rw [h']; decide
  exact fun v => H (sizeOf v) v (Nat.le_refl _)

theorem serV_ne_nil (v : JVal) : serV v ≠ [] := by
  obtain ⟨c, t, h, _⟩ := serV_head v
  rw [h]
  simp

/-! ### Fuel accounting -/

mutual

/-- Fuel sufficient for parseV to re-read a serialized value. -/
def fsize : JVal → Nat
  | .arr xs => 1 + fsizeItems xs
  | .obj fs => 1 + fsizeFields fs
  | _ => 1

def fsizeItems : List JVal → Nat
  | [] => 1
  | x :: xs => 1 + max (fsize x) (fsizeItems xs)

def fsizeFields : List (String × JVal) → Nat
  | [] => 1
  | f :: fs => 1 + max (fsize f.2) (fsizeFields fs)

end

theorem fsize_pos (v : JVal) : 1 ≤ fsize v := by
  cases v <;> simp [fsize]

theorem serItems_length (x : JVal) (y : JVal) (t : List JVal) :
    (serItems (x :: y :: t)).length
      = (serV x).length + 1 + (serItems (y :: t)).length := by
  rw [show serItems (x :: y :: t) = serV x ++ ',' :: serItems (y :: t) from rfl]
  simp
  omega

theorem serV_length_pos (v : JVal) : 1 ≤ (serV v).length := by
  obtain ⟨c, t, h, _⟩ := serV_head v
  rw [h]
  simp

mutual

theorem fsize_le : ∀ v : JVal, fsize v ≤ (serV v).length + 1
  | .null => by simp [fsize, serV]
  | .bool b => by cases b <;> simp [fsize, serV]
  | .num i => by simp [fsize]
  | .str s => by simp [fsize]
  | .arr xs => by
    have h := fsizeItems_le xs
    rw [show serV (.arr xs) = '[' :: (serItems xs ++ [']']) from rfl]
    simp only [fsize, List.length_cons, List.length_append, List.length_singleton]
    omega
  | .obj fs => by
    have h := fsizeFields_le fs
    rw [show serV (.obj fs) = '{' :: (serFields fs ++ ['}']) from rfl]
    simp only [fsize, List.length_cons, List.length_append, List.length_singleton]
    omega

theorem fsizeItems_le : ∀ xs : List JVal, fsizeItems xs ≤ (serItems xs).length + 2
  | [] => by simp [fsizeItems, serItems]
  | [x] => by
    have h := fsize_le x
    have h2 := serV_length_pos x
    rw [show serItems [x] = serV x from rfl,
      show fsizeItems [x] = 1 + max (fsize x) 1 from rfl]
    omega
  | x :: y :: t => by
    have h1 := fsize_le x
    have h2 := fsizeItems_le (y :: t)
    rw [serItems_length,
      show fsizeItems (x :: y :: t) = 1 + max (fsize x) (fsizeItems (y :: t)) from rfl]
    omega

theorem fsizeFields_le : ∀ fs : List (String × JVal), fsizeFields fs ≤ (serFields fs).length + 2
  | [] => by simp [fsizeFields, serFields]
  | [(k, v)] => by
    have h := fsize_le v
    rw [show serFields [(k, v)] = serStr k ++ ':' :: serV v from rfl,
      show fsizeFields [(k, v)] = 1 + max (fsize v) 1 from rfl]
    simp only [List.length_append, List.length_cons]
    omega
  | (k, v) :: q :: t => by
    have h1 := fsize_le v
    have h2 := fsizeFields_le (q :: t)
    rw [show serFields ((k, v) :: q :: t)
        = serStr k ++ ':' :: serV v ++ ',' :: serFields (q :: t) from rfl,
      show fsizeFields ((k, v) :: q :: t)
        = 1 + max (fsize v) (fsizeFields (q :: t)) from rfl]
    simp only [List.length_append, List.length_cons]
    omega

end

/-! ### The round trip: parsing a serialized value -/

/-- The text following a serialized value must not begin with a digit
(inside arrays and objects it begins with a comma or a closing bracket). -/
def safeTail (rest : List Char) : Prop :=
  match rest.head? with
  | some c => c.isDigit = false
  | none => True

theorem string_mk_data (s : String) : String.mk s.data = s := rfl

theorem parse_ser_rt : ∀ f : Nat,
    (∀ (v : JVal) (rest : List Char), fsize v ≤ f → safeTail rest →
      parseV f (serV v ++ rest) = some (v, rest)) ∧
    (∀ (xs : List JVal) (rest : List Char), fsizeItems xs ≤ f →
      parseItems f (serItems xs ++ ']' :: rest) = some (xs, rest)) ∧
    (∀ (fs : List (String × JVal)) (rest : List Char), fsizeFields fs ≤ f →
      parseFields f (serFields fs ++ '}' :: rest) = some (fs, rest)) := by
  intro f
  induction f with
  | zero =>
    refine ⟨?_, ?_, ?_⟩
    · intro v rest hf _
      have := fsize_pos v
      omega
    · intro xs rest hf
      cases xs <;> simp [fsizeItems] at hf
    · intro fs rest hf
      cases fs <;> simp [fsizeFields] at hf
  | succ f ih =>
    obtain ⟨ihV, ihI, ihF⟩ := ih
    refine ⟨?_, ?_, ?_⟩
    · -- values
      intro v rest hf hrest
      cases v with
      | null =>
        rw [show serV .null ++ rest = 'n' :: 'u' :: 'l' :: 'l' :: rest from rfl, parseV]
        simp
      | bool b =>
        cases b
        · rw [show serV (.bool false) ++ rest
              = 'f' :: 'a' :: 'l' :: 's' :: 'e' :: rest from rfl, parseV]
          simp
        · rw [show serV (.bool true) ++ rest
              = 't' :: 'r' :: 'u' :: 'e' :: rest from rfl, parseV]
          simp
      | num i =>
        by_cases hi : i < 0
        · rw [show serV (.num i) = serInt i from rfl]
          unfold serInt
          rw [if_pos hi, List.cons_append, parseV]
          have hpn := parseNat_natDigits (-i).toNat rest (by
            unfold safeTail at hrest
            exact hrest)
          simp only [if_neg (by decide : ¬ ('-' : Char) = 'n'),
            if_neg (by decide : ¬ ('-' : Char) = 't'),
            if_neg (by decide : ¬ ('-' : Char) = 'f'),
            if_neg (by decide : ¬ ('-' : Char) = '"'),
            if_neg (by decide : ¬ ('-' : Char) = '['),
            if_neg (by decide : ¬ ('-' : Char) = '{'),
            if_pos (rfl : ('-' : Char) = '-')]
          rw [hpn, if_pos trivial]
          show some (JVal.num (-(((-i).toNat : Int))), rest) = some (JVal.num i, rest)
          have h2 : (-(((-i).toNat : Int))) = i := by omega
          rw [h2]
        · rw [show serV (.num i) = serInt i from rfl]
          unfold serInt
          rw [if_neg hi]
          obtain ⟨d, t, hdt, hd⟩ := natDigits_head i.toNat
          obtain ⟨hn, ht', hf', hq, hlb, hlc, hmi⟩ := digit_notSpecial hd
          rw [hdt, List.cons_append, parseV]
          simp only [if_neg hn, if_neg ht', if_neg hf', if_neg hq, if_neg hlb,
            if_neg hlc, if_neg hmi, hd, if_true]
          have hpn := parseNat_natDigits i.toNat rest (by
            unfold safeTail at hrest
            exact hrest)
          rw [hdt, List.cons_append] at hpn
          rw [hpn]
          show some (JVal.num ((i.toNat : Int)), rest) = some (JVal.num i, rest)
          have h2 : ((i.toNat : Int)) = i := by omega
          rw [h2]
      | str s =>
        rw [show serV (.str s) ++ rest
            = '"' :: (escList s.data ++ ('"' :: rest)) from by
          rw [show serV (.str s) = '"' :: (escList s.data ++ ['"']) from rfl]
          simp, parseV]
        simp only [if_neg (by decide : ¬ ('"' : Char) = 'n'),
          if_neg (by decide : ¬ ('"' : Char) = 't'),
          if_neg (by decide : ¬ ('"' : Char) = 'f'),
          if_pos (rfl : ('"' : Char) = '"')]
        rw [parseStrGo_escList]
        simp [string_mk_data]
      | arr xs =>
        rw [show serV (.arr xs) ++ rest
            = '[' :: (serItems xs ++ (']' :: rest)) from by
          rw [show serV (.arr xs) = '[' :: (serItems xs ++ [']']) from rfl]
          simp, parseV]
        simp only [if_neg (by decide : ¬ ('[' : Char) = 'n'),
          if_neg (by decide : ¬ ('[' : Char) = 't'),
          if_neg (by decide : ¬ ('[' : Char) = 'f'),
          if_neg (by decide : ¬ ('[' : Char) = '"'),
          if_pos (rfl : ('[' : Char) = '[')]
        rw [ihI xs rest (by
          rw [show fsize (.arr xs) = 1 + fsizeItems xs from rfl] at hf
          omega), if_pos trivial]
      | obj fs =>
        rw [show serV (.obj fs) ++ rest
            = '{' :: (serFields fs ++ ('}' :: rest)) from by
          rw [show serV (.obj fs) = '{' :: (serFields fs ++ ['}']) from rfl]
          simp, parseV]
        simp only [if_neg (by decide : ¬ ('{' : Char) = 'n'),
          if_neg (by decide : ¬ ('{' : Char) = 't'),
          if_neg (by decide : ¬ ('{' : Char) = 'f'),
          if_neg (by decide : ¬ ('{' : Char) = '"'),
          if_neg (by decide : ¬ ('{' : Char) = '['),
          if_pos (rfl : ('{' : Char) = '{')]
        rw [ihF fs rest (by
          rw [show fsize (.obj fs) = 1 + fsizeFields fs from rfl] at hf
          omega), if_pos trivial]
    · -- array items
      intro xs rest hf
      cases xs with
      | nil =>
        rw [show serItems [] ++ ']' :: rest = ']' :: rest from rfl, parseItems]
        simp
      | cons x t =>
        obtain ⟨c, t₀, hct, hgs⟩ := serV_head x
        cases t with
        | nil =>
          rw [show serItems [x] ++ ']' :: rest = serV x ++ (']' :: rest) from by
            rw [show serItems [x] = serV x from rfl],
            parseItems]
          rw [hct, List.cons_append]
          rw [if_neg (by simp [goodStart_ne_rbracket hgs])]
          rw [← List.cons_append, ← hct,
            ihV x (']' :: rest) (by
              rw [show fsizeItems [x] = 1 + max (fsize x) (fsizeItems []) from rfl] at hf
              omega) (by simp [safeTail])]
          simp
        | cons y t2 =>
          rw [show serItems (x :: y :: t2) ++ ']' :: rest
              = serV x ++ (',' :: (serItems (y :: t2) ++ ']' :: rest)) from by
            rw [show serItems (x :: y :: t2) = serV x ++ ',' :: serItems (y :: t2) from rfl]
            simp, parseItems]
          rw [hct, List.cons_append]
          rw [if_neg (by simp [goodStart_ne_rbracket hgs])]
          rw [← List.cons_append, ← hct,
            ihV x (',' :: (serItems (y :: t2) ++ ']' :: rest)) (by
              rw [show fsizeItems (x :: y :: t2)
                  = 1 + max (fsize x) (fsizeItems (y :: t2)) from rfl] at hf
              omega) (by simp [safeTail])]
          simp
          rw [ihI (y :: t2) rest (by
            rw [show fsizeItems (x :: y :: t2)
                = 1 + max (fsize x) (fsizeItems (y :: t2)) from rfl] at hf
            omega)]
    · -- object fields
      intro fs rest hf
      cases fs with
      | nil =>
        rw [show serFields [] ++ '}' :: rest = '}' :: rest from rfl, parseFields]
        simp
      | cons p t =>
        obtain ⟨k, v⟩ := p
        have hser : ∀ X : List Char, (serStr k ++ X)
            = '"' :: (escList k.data ++ ('"' :: X)) := by
          intro X
          rw [show serStr k = '"' :: (escList k.data ++ ['"']) from rfl]
          simp
        cases t with
        | nil =>
          rw [show serFields [(k, v)] ++ '}' :: rest
              = serStr k ++ (':' :: (serV v ++ '}' :: rest)) from by
            rw [show serFields [(k, v)] = serStr k ++ ':' :: serV v from rfl]
            simp, hser, parseFields]
          rw [if_neg (by simp), if_pos (by simp)]
          rw [show ('"' :: (escList k.data ++ ('"' :: (':' :: (serV v ++ '}' :: rest))))).tail
              = escList k.data ++ ('"' :: (':' :: (serV v ++ '}' :: rest))) from rfl]
          rw [parseStrGo_escList]
          simp [string_mk_data]
          rw [ihV v ('}' :: rest) (by
            rw [show fsizeFields [(k, v)] = 1 + max (fsize v) (fsizeFields []) from rfl] at hf
            omega) (by simp [safeTail])]
          simp
        | cons q t2 =>
          rw [show serFields ((k, v) :: q :: t2) ++ '}' :: rest
              = serStr k ++ (':' :: (serV v
                  ++ ',' :: (serFields (q :: t2) ++ '}' :: rest))) from by
            rw [show serFields ((k, v) :: q :: t2)
                = serStr k ++ ':' :: serV v ++ ',' :: serFields (q :: t2) from rfl]
            simp, hser, parseFields]
          rw [if_neg (by simp), if_pos (by simp)]
          rw [show ('"' :: (escList k.data ++ ('"' :: (':' :: (serV v
              ++ ',' :: (serFields (q :: t2) ++ '}' :: rest)))))).tail
              = escList k.data ++ ('"' :: (':' :: (serV v
                  ++ ',' :: (serFields (q :: t2) ++ '}' :: rest)))) from rfl]
          rw [parseStrGo_escList]
          simp [string_mk_data]
          rw [ihV v (',' :: (serFields (q :: t2) ++ '}' :: rest)) (by
            rw [show fsizeFields ((k, v) :: q :: t2)
                = 1 + max (fsize v) (fsizeFields (q :: t2)) from rfl] at hf
            omega) (by simp [safeTail])]
          simp
          rw [ihF (q :: t2) rest (by
            rw [show fsizeFields ((k, v) :: q :: t2)
                = 1 + max (fsize v) (fsizeFields (q :: t2)) from rfl] at hf
            omega)]

theorem jsonParse_serV (v : JVal) : jsonParse (String.mk (serV v)) = some v := by
  unfold jsonParse
  have h := (parse_ser_rt ((serV v).length + 1)).1 v [] (by
    have := fsize_le v
    omega) (by simp [safeTail])
  rw [show serV v ++ ([] : List Char) = serV v from by simp] at h
  rw [show (String.mk (serV v)).data = serV v from rfl, h]

/-! ### NDJSON export and line splitting

`exportNdjson` models `logs.map(e => JSON.stringify(e)).join("\n")`;
`exportUsersNdjson` models
`Array.from(users.values()).map(u => JSON.stringify(u)).join("\n")`.
`linesOf` models the re-parsing procedure of the round-trip law: the NDJSON
text is cut at newlines, the empty text carrying zero records. -/

def joinNl : List (List Char) → List Char
  | [] => []
  | [l] => l
  | l :: y :: t => l ++ '\n' :: joinNl (y :: t)

def splitNlGo : List Char → List Char → List (List Char)
  | [], cur => [cur.reverse]
  | c :: r, cur =>
    if c = '\n' then cur.reverse :: splitNlGo r [] else splitNlGo r (c :: cur)

def linesOf (s : String) : List String :=
  if s.data = [] then [] else (splitNlGo s.data []).map String.mk

def exportNdjson (logs : List JVal) : String :=
  String.mk (joinNl (logs.map serV))

def exportUsersNdjson (reg : List (JVal × URecord)) : String :=
  String.mk (joinNl (reg.map (fun p => serV (.obj p.2))))

theorem splitNlGo_end : ∀ (p cur : List Char), (∀ c ∈ p, ¬ c = '\n') →
    splitNlGo p cur = [cur.reverse ++ p] := by
  intro p
  induction p with
  | nil => intro cur _; simp [splitNlGo]
  | cons c r ih =>
    intro cur hp
    rw [splitNlGo, if_neg (hp c (by simp))]
    rw [ih (c :: cur) (fun d hd => hp d (by simp [hd]))]
    simp

theorem splitNlGo_piece : ∀ (p cur rest : List Char), (∀ c ∈ p, ¬ c = '\n') →
    splitNlGo (p ++ '\n' :: rest) cur = (cur.reverse ++ p) :: splitNlGo rest [] := by
  intro p
  induction p with
  | nil =>
    intro cur rest _
    rw [List.nil_append, splitNlGo, if_pos rfl]
    simp
  | cons c r ih =>
    intro cur rest hp
    rw [List.cons_append, splitNlGo, if_neg (hp c (by simp))]
    rw [ih (c :: cur) rest (fun d hd => hp d (by simp [hd]))]
    simp

theorem splitNl_joinNl : ∀ ps : List (List Char), ps ≠ [] →
    (∀ p ∈ ps, ∀ c ∈ p, ¬ c = '\n') →
    splitNlGo (joinNl ps) [] = ps := by
  intro ps
  induction ps with
  | nil => intro h; exact absurd rfl h
  | cons p t ih =>
    intro _ hfree
    cases t with
    | nil =>
      rw [show joinNl [p] = p from rfl]
      rw [splitNlGo_end p [] (hfree p (by simp))]
      simp
    | cons q t2 =>
      rw [show joinNl (p :: q :: t2) = p ++ '\n' :: joinNl (q :: t2) from rfl]
      rw [splitNlGo_piece p [] (joinNl (q :: t2)) (hfree p (by simp))]
      rw [ih (by simp) (fun r hr c hc => hfree r (by simp [hr]) c hc)]
      simp

theorem joinNl_eq_nil : ∀ ps : List (List Char), (∀ p ∈ ps, p ≠ []) →
    joinNl ps = [] → ps = [] := by
  intro ps hne
  cases ps with
  | nil => intro _; rfl
  | cons p t =>
    cases t with
    | nil =>
      rw [show joinNl [p] = p from rfl]
      intro h
      exact absurd h (hne p (by simp))
    | cons q t2 =>
      rw [show joinNl (p :: q :: t2) = p ++ '\n' :: joinNl (q :: t2) from rfl]
      intro h
      rcases List.append_eq_nil.mp h with ⟨_, h2⟩
      exact absurd h2 (by simp)

theorem linesOf_join (ps : List (List Char)) (hne : ∀ p ∈ ps, p ≠ [])
    (hfree : ∀ p ∈ ps, ∀ c ∈ p, ¬ c = '\n') :
    linesOf (String.mk (joinNl ps)) = ps.map String.mk := by
  unfold linesOf
  by_cases h : joinNl ps = []
  · rw [joinNl_eq_nil ps hne h]
    simp [show (String.mk (joinNl [])).data = [] from rfl]
    intro hc
    exact absurd (show joinNl [] = [] from rfl) hc
  · rw [show (String.mk (joinNl ps)).data = joinNl ps from rfl, if_neg h]
    have hps : ps ≠ [] := by
      intro hp
      exact h (by rw [hp]; rfl)
    rw [splitNl_joinNl ps hps hfree]

theorem exportNdjson_roundtrip (logs : List JVal) :
    (linesOf (exportNdjson logs)).map jsonParse = logs.map some := by
  unfold exportNdjson
  rw [linesOf_join (logs.map serV)
    (by
      intro p hp
      rw [List.mem_map] at hp
      obtain ⟨v, _, hv⟩ := hp
      rw [← hv]
      exact serV_ne_nil v)
    (by
      intro p hp
      rw [List.mem_map] at hp
      obtain ⟨v, _, hv⟩ := hp
      rw [← hv]
      exact serV_ne_nl v)]
  rw [List.map_map, List.map_map]
  refine List.map_congr_left ?_
  intro v _
  exact jsonParse_serV v

theorem exportUsersNdjson_roundtrip (reg : List (JVal × URecord)) :
    (linesOf (exportUsersNdjson reg)).map jsonParse
      = reg.map (fun p => some (JVal.obj p.2)) := by
  unfold exportUsersNdjson
  rw [linesOf_join (reg.map (fun p => serV (.obj p.2)))
    (by
      intro p hp
      rw [List.mem_map] at hp
      obtain ⟨u, _, hu⟩ := hp
      rw [← hu]
      exact serV_ne_nil (.obj u.2))
    (by
      intro p hp
      rw [List.mem_map] at hp
      obtain ⟨u, _, hu⟩ := hp
      rw [← hu]
      exact serV_ne_nl (.obj u.2))]
  rw [List.map_map, List.map_map]
  refine List.map_congr_left ?_
  intro u _
  exact jsonParse_serV (.obj u.2)

/-! ### Transport wrappers: the fetch hook, the XHR send hook, install/stop

Uncontrolled upstream data is modelled by oracles of type `Except JsErr _`:
each read the wrapper performs on a request, a response or an XHR object
either yields a value or throws.  The wrappers' try/catch structure is then
translated literally; wall-clock fields (`timeMs`, `at`) and console output
are omitted from the model. -/

/-- An exception value thrown by JS code. -/
structure JsErr where
  msg : String
deriving DecidableEq

/-- The part of a fetch Response the wrapper reads off the original object
(everything else is read from the clone, which can throw). -/
structure Response where
  status : Int
deriving DecidableEq

/-- Everything one wrapped fetch call observes: request data (whose
extraction can throw), the underlying transport outcome, and the response
clone reads (which can throw). -/
structure FetchEnv where
  url : Option String
  method : String
  reqHeaders : Except JsErr JVal
  reqBodyText : Except JsErr JVal
  underlying : Except JsErr Response
  respHeaders : Except JsErr JVal
  respCtJson : Bool
  respText : Except JsErr String

/-- Substring test, the anchor-free regex /\.slack\.com\/api\//. -/
def hasSubstr (pat : List Char) : List Char → Bool
  | [] => pat.isEmpty
  | c :: r => pat.isPrefixOf (c :: r) || hasSubstr pat r

/-- shouldCapture(url): url truthy and matching the API hostname pattern;
when a non-empty include array is configured, some include regex must match
as well. -/
def shouldCapture (cfg : Config) (url : Option String) : Bool :=
  match url with
  | none => false
  | some u =>
    if u.data = [] then false
    else
      hasSubstr ".slack.com/api/".data u.data &&
        (match cfg.includeFilters with
         | some (f :: fs) => (f :: fs).any (fun g => g u)
         | _ => true)

/-- safeJsonParse(t): JSON.parse with failures mapped to null.  A non-string
argument is coerced by JSON.parse; the only such argument the wrappers pass
is null, which parses to null. -/
def safeJsonParse (v : JVal) : JVal :=
  match v with
  | .str s => (jsonParse s).getD .null
  | _ => .null

/-- The capture side effect of one successful wrapped fetch call: the two
try/catch blocks around the request and response reads, then onRecord.
A throw inside the response block leaves the fields read so far at their
defaults and never escapes. -/
def fetchCapture (cfg : Config) (env : FetchEnv) (res : Response)
    (st : CaptureState) : CaptureState :=
  if shouldCapture cfg env.url then
    let reqHeaders := (env.reqHeaders.toOption).getD (.obj [])
    let reqBody := (env.reqBodyText.toOption).getD .null
    let respData : JVal × JVal × JVal :=
      match env.respHeaders, env.respText with
      | .ok hs, .ok t =>
        (hs, .str t, if env.respCtJson then safeJsonParse (.str t) else .null)
      | .ok hs, .error _ => (hs, .null, .null)
      | .error _, _ => (.obj [], .null, .null)
    onRecord cfg st (.obj
      [ ("type", .str "fetch")
      , ("url", match env.url with | some u => .str u | none => .null)
      , ("method", .str env.method)
      , ("request", .obj
          [ ("headers", sanitizeHeaders cfg.excludeHeaders reqHeaders)
          , ("bodyText", sanitizeBodyText cfg.maskTokens reqBody) ])
      , ("response", .obj
          [ ("status", .num res.status)
          , ("headers", sanitizeHeaders cfg.excludeHeaders respData.1)
          , ("bodyText", respData.2.1)
          , ("json", respData.2.2) ]) ])
  else st

/-- A transport slot: either the browser's own function or a capture wrapper
installed over an inner transport. -/
inductive Transport where
  | base
  | hooked (inner : Transport)
deriving DecidableEq

/-- Run a fetch slot.  The base slot produces the underlying outcome and
touches no state; a hooked slot awaits the inner transport, propagates a
rejection unchanged, and on success performs the capture side effect before
returning the inner result unchanged. -/
def runFetch (cfg : Config) : Transport → FetchEnv → CaptureState →
    Except JsErr Response × CaptureState
  | .base, env, st => (env.underlying, st)
  | .hooked inner, env, st =>
    match runFetch cfg inner env st with
    | (.error e, st1) => (.error e, st1)
    | (.ok res, st1) => (.ok res, fetchCapture cfg env res st1)

/-- The installed window.fetch wrapper: one hook over the original fetch. -/
def fetchWrapper (cfg : Config) (env : FetchEnv) (st : CaptureState) :
    Except JsErr Response × CaptureState :=
  runFetch cfg (.hooked .base) env st

/-- Everything one wrapped XHR send observes. -/
structure XhrEnv where
  url : Option String
  method : Option String
  reqHeaders : JVal
  status : Int
  rawHeaders : Except JsErr JVal
  responseText : Except JsErr JVal
  body : JVal
  sendResult : Except JsErr Unit

/-- JS whitespace characters trimmed by String.prototype.trim (the ASCII
ones; the raw-header strings at hand contain no exotic whitespace). -/
def isWs (c : Char) : Bool :=
  c = ' ' || c = '\t' || c = '\n' || c = '\r'

/-- String.prototype.trim. -/
def trimWs (cs : List Char) : List Char :=
  ((cs.dropWhile isWs).reverse.dropWhile isWs).reverse

/-- split(/\r?\n/): a lone carriage return is content, not a separator. -/
def splitLines : List Char → List Char → List (List Char)
  | [], cur => [cur.reverse]
  | '\r' :: '\n' :: r, cur => cur.reverse :: splitLines r []
  | '\n' :: r, cur => cur.reverse :: splitLines r []
  | c :: r, cur => splitLines r (c :: cur)

/-- parseRawHeaders(raw): falsy input gives {}; otherwise trim, split into
lines, and keep every line whose first colon sits at a positive index,
lowercasing and trimming the name, trimming the value (later duplicates
overwrite). -/
def parseRawHeaders (v : JVal) : JVal :=
  if truthy v = false then .obj []
  else
    .obj ((splitLines (trimWs (strVal v).data) []).foldl
      (fun obj line =>
        let idx := line.indexOf ':'
        if 0 < idx ∧ idx < line.length then
          assocSet obj (lowerStr (String.mk (trimWs (line.take idx))))
            (JVal.str (String.mk (trimWs (line.drop (idx + 1)))))
        else obj)
      [])

/-- The readystatechange listener the send wrapper registers, at
readyState 4.  Its try/catch swallows every exception, so a throwing
response read records nothing. -/
def xhrListener (cfg : Config) (env : XhrEnv) (st : CaptureState) :
    CaptureState :=
  if shouldCapture cfg env.url then
    match env.rawHeaders, env.responseText with
    | .ok raw, .ok bodyText =>
      onRecord cfg st (.obj
        [ ("type", .str "xhr")
        , ("url", match env.url with | some u => .str u | none => .null)
        , ("method", match env.method with
            | some m => if m = "" then .str "GET" else .str m
            | none => .str "GET")
        , ("request", .obj
            [ ("headers", sanitizeHeaders cfg.excludeHeaders env.reqHeaders)
            , ("bodyText", sanitizeBodyText cfg.maskTokens env.body) ])
        , ("response", .obj
            [ ("status", .num env.status)
            , ("headers", sanitizeHeaders cfg.excludeHeaders (parseRawHeaders raw))
            , ("bodyText", bodyText)
            , ("json", safeJsonParse bodyText) ]) ])
    | _, _ => st
  else st

/-- Run a send slot.  The base slot produces the original send outcome; a
hooked slot registers the listener, delegates to the inner transport,
returns its outcome unchanged, and the listener's capture effect lands on
completion. -/
def runSend (cfg : Config) : Transport → XhrEnv → CaptureState →
    Except JsErr Unit × CaptureState
  | .base, env, st => (env.sendResult, st)
  | .hooked inner, env, st =>
    match runSend cfg inner env st with
    | (.error e, st1) => (.error e, st1)
    | (.ok r, st1) => (.ok r, xhrListener cfg env st1)

/-- The installed xhrProto.send wrapper: one hook over the original send. -/
def xhrSend (cfg : Config) (env : XhrEnv) (st : CaptureState) :
    Except JsErr Unit × CaptureState :=
  runSend cfg (.hooked .base) env st

theorem runFetch_fst : ∀ (t : Transport) (cfg : Config) (env : FetchEnv)
    (st : CaptureState), (runFetch cfg t env st).1 = env.underlying := by
  intro t
  induction t with
  | base => intro cfg env st; rfl
  | hooked inner ih =>
    intro cfg env st
    rw [runFetch]
    have h := ih cfg env st
    rcases hr : runFetch cfg inner env st with ⟨r, st1⟩
    rw [hr] at h
    cases r with
    | error e => exact h
    | ok res => exact h

theorem runSend_fst : ∀ (t : Transport) (cfg : Config) (env : XhrEnv)
    (st : CaptureState), (runSend cfg t env st).1 = env.sendResult := by
  intro t
  induction t with
  | base => intro cfg env st; rfl
  | hooked inner ih =>
    intro cfg env st
    rw [runSend]
    have h := ih cfg env st
    rcases hr : runSend cfg inner env st with ⟨r, st1⟩
    rw [hr] at h
    cases r with
    | error e => exact h
    | ok r0 => exact h

theorem fetchWrapper_reject (cfg : Config) (env : FetchEnv) (st : CaptureState)
    (e : JsErr) (h : env.underlying = Except.error e) :
    fetchWrapper cfg env st = (Except.error e, st) := by
  unfold fetchWrapper
  rw [runFetch, runFetch, h]

/-! ### Install and stop -/

/-- The four transport entry points the script replaces, plus the presence
of the window._slackCapture api object. -/
structure Window where
  fetchSlot : Transport
  openSlot : Transport
  setHeaderSlot : Transport
  sendSlot : Transport
  hasApi : Bool
deriving DecidableEq

/-- The originals the closure retains (originalFetch, origOpen,
origSetRequestHeader, origSend). -/
structure SavedSlots where
  fetchFn : Transport
  openFn : Transport
  setHeaderFn : Transport
  sendFn : Transport
deriving DecidableEq

/-- Running the IIFE: an already-installed window is left alone (early
return); otherwise the four originals are saved, each slot is wrapped, and
the api object appears. -/
def install (w : Window) : Option (Window × SavedSlots) :=
  if w.hasApi then none
  else some
    ({ fetchSlot := .hooked w.fetchSlot
       openSlot := .hooked w.openSlot
       setHeaderSlot := .hooked w.setHeaderSlot
       sendSlot := .hooked w.sendSlot
       hasApi := true },
     { fetchFn := w.fetchSlot
       openFn := w.openSlot
       setHeaderFn := w.setHeaderSlot
       sendFn := w.sendSlot })

/-- stop(): write the four saved originals back; the api object stays. -/
def stop (saved : SavedSlots) (w : Window) : Window :=
  { w with
    fetchSlot := saved.fetchFn
    openSlot := saved.openFn
    setHeaderSlot := saved.setHeaderFn
    sendSlot := saved.sendFn }

/-! ## The claims -/

/-- Sample configuration: the cfg literal's defaults. -/
def sampleCfg : Config :=
  { maxLogSize := 2
    excludeHeaders := defaultExcludeHeaders
    maskTokens := true
    userCaptureEnabled := true
    includeFilters := none
    verbose := false }

/-- Sample configuration with trimming disabled. -/
def sampleCfg0 : Config := { sampleCfg with maxLogSize := 0 }

def sampleSt : CaptureState := { logs := [.null, .bool true], users := [] }

def uC1a : URecord := [("id", .str "U1"), ("name", .str "x")]

def uC1b : URecord := [("id", .str "U1"), ("name", .str "y")]

/-- C1, counterexample to commutativity as stated: two candidates share the
key "U1" but disagree on a non-empty name field; under first-non-empty-wins
the earlier candidate keeps its name, so the two merge orders store different
records. -/
theorem claim_C1_counterexample :
    idVal uC1a = idVal uC1b ∧
    addOrMergeUser (addOrMergeUser ([] : RegState) uC1a) uC1b
      ≠ addOrMergeUser (addOrMergeUser ([] : RegState) uC1b) uC1a := by
  constructor
  · rfl
  · decide

/-- C1 (amended): merging the same candidate twice is exactly idempotent,
and for two candidates sharing an id whose non-empty field values agree
wherever both provide one (Compatible), the two merge orders give field-wise
equal records at that id.  Unrestricted commutativity is refuted by the
counterexample. -/
theorem claim_C1 (s : RegState) (u₁ u₂ : URecord)
    (hid : idVal u₁ = idVal u₂) (hc : Compatible u₁ u₂) :
    (addOrMergeUser (addOrMergeUser s u₁) u₁ = addOrMergeUser s u₁) ∧
    ((assocGet (addOrMergeUser (addOrMergeUser s u₁) u₂) (idVal u₁) = none ∧
        assocGet (addOrMergeUser (addOrMergeUser s u₂) u₁) (idVal u₁) = none) ∨
      (∃ a b,
        assocGet (addOrMergeUser (addOrMergeUser s u₁) u₂) (idVal u₁) = some a ∧
        assocGet (addOrMergeUser (addOrMergeUser s u₂) u₁) (idVal u₁) = some b ∧
        ∀ f, assocGet a f = assocGet b f)) :=
  ⟨addOrMergeUser_idem s u₁, addOrMergeUser_comm_compat s u₁ u₂ hid hc⟩

theorem claim_C1_witness :
    (addOrMergeUser (addOrMergeUser ([] : RegState) uC1a) uC1a
        = addOrMergeUser ([] : RegState) uC1a) ∧
    ((assocGet (addOrMergeUser (addOrMergeUser ([] : RegState) uC1a) uC1a)
          (idVal uC1a) = none ∧
        assocGet (addOrMergeUser (addOrMergeUser ([] : RegState) uC1a) uC1a)
          (idVal uC1a) = none) ∨
      (∃ a b,
        assocGet (addOrMergeUser (addOrMergeUser ([] : RegState) uC1a) uC1a)
          (idVal uC1a) = some a ∧
        assocGet (addOrMergeUser (addOrMergeUser ([] : RegState) uC1a) uC1a)
          (idVal uC1a) = some b ∧
        ∀ f, assocGet a f = assocGet b f)) :=
  claim_C1 [] uC1a uC1a rfl
    (fun k v₁ v₂ h1 h2 => by rw [h1] at h2; exact Option.some.inj h2)

/-- C2: appends go to the tail; with a positive cap the buffer length never
exceeds the cap after an append, eviction removes exactly a prefix of oldest
entries, and a cap of 0 or less never trims. -/
theorem claim_C2 (cfg : Config) (st : CaptureState) (entry : JVal) :
    (onRecord cfg st entry).logs = trimLogs cfg.maxLogSize (st.logs ++ [entry]) ∧
    (0 < cfg.maxLogSize →
      (((onRecord cfg st entry).logs.length : Int) ≤ cfg.maxLogSize)) ∧
    (∃ k, (onRecord cfg st entry).logs = (st.logs ++ [entry]).drop k) ∧
    (cfg.maxLogSize ≤ 0 → (onRecord cfg st entry).logs = st.logs ++ [entry]) := by
  refine ⟨onRecord_logs cfg st entry, ?_, ?_, ?_⟩
  · intro h
    rw [onRecord_logs cfg st entry]
    exact trimLogs_length_le _ _ h
  · rw [onRecord_logs cfg st entry]
    exact ⟨_, trimLogs_drop _ _⟩
  · intro h
    rw [onRecord_logs cfg st entry]
    exact trimLogs_nonpos _ _ h

theorem claim_C2_witness :
    (((onRecord sampleCfg sampleSt JVal.null).logs.length : Int)
        ≤ sampleCfg.maxLogSize) ∧
    (onRecord sampleCfg0 sampleSt JVal.null).logs
        = sampleSt.logs ++ [JVal.null] :=
  ⟨(claim_C2 sampleCfg sampleSt .null).2.1 (by decide),
   (claim_C2 sampleCfg0 sampleSt .null).2.2.2 (by decide)⟩

def sampleStEmpty : CaptureState := { logs := [], users := [] }

def sampleFetchReject : FetchEnv :=
  { url := some "https://a.slack.com/api/users.info"
    method := "GET"
    reqHeaders := .error ⟨"unreadable headers"⟩
    reqBodyText := .error ⟨"unreadable body"⟩
    underlying := .error ⟨"offline"⟩
    respHeaders := .ok (.obj [])
    respCtJson := true
    respText := .error ⟨"gone"⟩ }

/-- C3: the wrapped fetch always returns (or rejects with) exactly the
underlying transport's outcome, whatever the capture-side reads do; a
rejection propagates with the state untouched (no capture happens); the
wrapped XHR send returns exactly the original send's outcome.  The capture
side effects (fetchCapture, xhrListener) are total functions, so no capture
exception escapes the wrapped calls. -/
theorem claim_C3 :
    (∀ (cfg : Config) (env : FetchEnv) (st : CaptureState),
      (fetchWrapper cfg env st).1 = env.underlying) ∧
    (∀ (cfg : Config) (env : FetchEnv) (st : CaptureState) (e : JsErr),
      env.underlying = Except.error e →
      fetchWrapper cfg env st = (Except.error e, st)) ∧
    (∀ (cfg : Config) (env : XhrEnv) (st : CaptureState),
      (xhrSend cfg env st).1 = env.sendResult) :=
  ⟨fun cfg env st => runFetch_fst (.hooked .base) cfg env st,
   fun cfg env st e h => fetchWrapper_reject cfg env st e h,
   fun cfg env st => runSend_fst (.hooked .base) cfg env st⟩

theorem claim_C3_witness :
    fetchWrapper sampleCfg sampleFetchReject sampleStEmpty
      = (Except.error ⟨"offline"⟩, sampleStEmpty) :=
  claim_C3.2.1 sampleCfg sampleFetchReject sampleStEmpty ⟨"offline"⟩ rfl

/-- C4: exporting the log buffer (resp. the user registry's records, in
insertion order) as NDJSON, splitting on newlines and JSON-parsing each line
recovers exactly the in-memory values. -/
theorem claim_C4 (logs : List JVal) (reg : List (JVal × URecord)) :
    (linesOf (exportNdjson logs)).map jsonParse = logs.map some ∧
    (linesOf (exportUsersNdjson reg)).map jsonParse
      = reg.map (fun p => some (JVal.obj p.2)) :=
  ⟨exportNdjson_roundtrip logs, exportUsersNdjson_roundtrip reg⟩

/-- C5: the dispatcher returns zero additions and an unchanged registry when
the URL yields no /api/<name> endpoint, when the response json is not a
parsed object, and when the endpoint is outside the known set; it never
fails. -/
theorem claim_C5 (entry : JVal) (users : RegState) :
    (truthy (entryPayload entry) = false ∨ isObjType (entryPayload entry) = false →
      processEntryForUsers entry users = (0, users)) ∧
    (endpointFromUrl (entryUrl entry) = none →
      processEntryForUsers entry users = (0, users)) ∧
    (∀ ep, endpointFromUrl (entryUrl entry) = some ep → ep ∉ knownEndpoints →
      processEntryForUsers entry users = (0, users)) := by
  refine ⟨?_, ?_, ?_⟩
  · intro hb
    simp only [processEntryForUsers]
    rw [if_pos hb]
  · intro hep
    by_cases hb : truthy (entryPayload entry) = false
        ∨ isObjType (entryPayload entry) = false
    · simp only [processEntryForUsers]
      rw [if_pos hb]
    · simp only [processEntryForUsers]
      rw [if_neg hb, hep]
  · intro ep hep hunk
    have h1 : ¬ ep = "search.modules.people" := fun hh =>
      hunk (by rw [hh]; simp [knownEndpoints])
    have h2 : ¬ ep = "users.info" := fun hh =>
      hunk (by rw [hh]; simp [knownEndpoints])
    have h3 : ¬ ep = "users.profile.get" := fun hh =>
      hunk (by rw [hh]; simp [knownEndpoints])
    have h4 : ¬ ep = "users.list" := fun hh =>
      hunk (by rw [hh]; simp [knownEndpoints])
    by_cases hb : truthy (entryPayload entry) = false
        ∨ isObjType (entryPayload entry) = false
    · simp only [processEntryForUsers]
      rw [if_pos hb]
    · simp [processEntryForUsers, hb, hep, h1, h2, h3, h4]

def entryNoEndpoint : JVal :=
  .obj [("url", .str "https://a.slack.com/client"),
        ("response", .obj [("json", .obj [("ok", .bool true)])])]

def entryBadPayload : JVal :=
  .obj [("url", .str "https://a.slack.com/api/users.info"),
        ("response", .obj [("json", .str "not an object")])]

def entryUnknownEndpoint : JVal :=
  .obj [("url", .str "https://a.slack.com/api/team.billing.info"),
        ("response", .obj [("json", .obj [("ok", .bool true)])])]

theorem claim_C5_witness :
    processEntryForUsers entryBadPayload [] = (0, []) ∧
    processEntryForUsers entryNoEndpoint [] = (0, []) ∧
    processEntryForUsers entryUnknownEndpoint [] = (0, []) :=
  ⟨(claim_C5 entryBadPayload []).1 (by decide),
   (claim_C5 entryNoEndpoint []).2.1 (by decide),
   (claim_C5 entryUnknownEndpoint []).2.2 "team.billing.info" (by decide)
     (by decide)⟩

/-- C6: the exclusion list contains authorization and cookie; no retained
key's lowercased form is excluded; every retained entry is an entry of the
input (original case and value); every non-excluded entry of a truthy object
input is retained; absent or wrong-typed input yields the empty object; and
sanitizing twice equals sanitizing once. -/
theorem claim_C6 :
    ("authorization" ∈ defaultExcludeHeaders ∧ "cookie" ∈ defaultExcludeHeaders) ∧
    (∀ (exclude : List String) (headers : JVal) (k : String) (v : JVal),
      (k, v) ∈ jentries (sanitizeHeaders exclude headers) →
      exclude.contains (lowerStr k) = false) ∧
    (∀ (exclude : List String) (headers : JVal) (k : String) (v : JVal),
      (k, v) ∈ jentries (sanitizeHeaders exclude headers) →
      (k, v) ∈ jentries headers) ∧
    (∀ (exclude : List String) (headers : JVal) (k : String) (v : JVal),
      (k, v) ∈ jentries headers → truthy headers = true → isObjType headers = true →
      exclude.contains (lowerStr k) = false →
      (k, v) ∈ jentries (sanitizeHeaders exclude headers)) ∧
    (∀ (exclude : List String) (headers : JVal),
      ¬ (truthy headers = true ∧ isObjType headers = true) →
      sanitizeHeaders exclude headers = .obj []) ∧
    (∀ (exclude : List String) (headers : JVal),
      sanitizeHeaders exclude (sanitizeHeaders exclude headers)
        = sanitizeHeaders exclude headers) :=
  ⟨⟨by simp [defaultExcludeHeaders], by simp [defaultExcludeHeaders]⟩,
   fun exclude headers k v h => sanitizeHeaders_not_excluded exclude headers h,
   fun exclude headers k v h => sanitizeHeaders_mem exclude headers h,
   fun exclude headers k v hin ht ho hex =>
     sanitizeHeaders_complete exclude headers hin ht ho hex,
   fun exclude headers h => sanitizeHeaders_wrong_typed exclude headers h,
   fun exclude headers => sanitizeHeaders_idem exclude headers⟩

def sampleHeaders : JVal :=
  .obj [("Authorization", .str "Bearer xoxb-123"), ("X-Trace", .str "1")]

theorem claim_C6_witness :
    defaultExcludeHeaders.contains (lowerStr "X-Trace") = false ∧
    ("X-Trace", JVal.str "1")
        ∈ jentries (sanitizeHeaders defaultExcludeHeaders sampleHeaders) ∧
    sanitizeHeaders defaultExcludeHeaders .null = .obj [] :=
  ⟨claim_C6.2.1 defaultExcludeHeaders sampleHeaders "X-Trace" (.str "1")
      (by decide),
   claim_C6.2.2.2.1 defaultExcludeHeaders sampleHeaders "X-Trace" (.str "1")
      (by decide) (by decide) (by decide) (by decide),
   claim_C6.2.2.2.2.1 defaultExcludeHeaders .null (by decide)⟩

/-- C7: with masking on, a token occurrence xox[abspre]-<suffix> in an
otherwise token-free prefix is replaced by its 5-character prefix plus ****
(the rest rescanned), token-free text is returned verbatim, absent or
non-string bodies are unchanged, masking is idempotent, and the concrete
body containing xoxb-AAAA1111 masks to xoxb-**** with the suffix gone. -/
theorem claim_C7 :
    (∀ (pre : List Char) (d : Char) (suf post : List Char),
      hasHeader pre = false → isKindChar d = true → suf ≠ [] →
      (∀ c ∈ suf, isTokChar c = true) → tokCharHead post = false →
      maskTokens (pre ++ ('x' :: 'o' :: 'x' :: d :: '-' :: (suf ++ post)))
        = pre ++ ('x' :: 'o' :: 'x' :: d :: '-' :: '*' :: '*' :: '*' :: '*'
            :: maskTokens post)) ∧
    (∀ cs, tokFree cs = true → maskTokens cs = cs) ∧
    (∀ v, truthy v = false ∨ isStr v = false → sanitizeBodyText true v = v) ∧
    (∀ v, sanitizeBodyText true (sanitizeBodyText true v)
        = sanitizeBodyText true v) ∧
    sanitizeBodyText true (.str "body=1&token=xoxb-AAAA1111&x=2")
      = .str "body=1&token=xoxb-****&x=2" := by
  refine ⟨?_, ?_, ?_, ?_, ?_⟩
  · intro pre d suf post h1 h2 h3 h4 h5
    exact maskTokens_mask_first h1 h2 h3 h4 h5
  · exact maskTokens_of_tokFree
  · intro v h
    exact sanitizeBodyText_non_string true v h
  · exact sanitizeBodyText_idem
  · rw [sanitizeBodyText_str (by decide)]
    simp +decide [maskTokens, String.data]

theorem claim_C7_witness :
    maskTokens (['t', '='] ++ ('x' :: 'o' :: 'x' :: 'b' :: '-'
        :: (['A', '1'] ++ ['&', 'z'])))
      = ['t', '='] ++ ('x' :: 'o' :: 'x' :: 'b' :: '-' :: '*' :: '*' :: '*'
          :: '*' :: maskTokens ['&', 'z']) ∧
    maskTokens ['a', 'b'] = ['a', 'b'] ∧
    sanitizeBodyText true .null = .null :=
  ⟨claim_C7.1 ['t', '='] 'b' ['A', '1'] ['&', 'z'] (by decide) (by decide)
      (by decide) (by decide) (by decide),
   claim_C7.2.1 ['a', 'b'] (by decide),
   claim_C7.2.2.1 .null (by decide)⟩

/-- C8: one users.info entry with user id U1, handle alice and profile
display_name Alice, fed to an empty registry, adds exactly one record keyed
"U1" whose username is "alice" and whose name is "Alice". -/
theorem claim_C8 :
    processEntryForUsers
      (.obj [("url", .str "https://w.slack.com/api/users.info"),
             ("response", .obj [("json", .obj [("user", .obj
               [("id", .str "U1"), ("name", .str "alice"),
                ("profile", .obj [("display_name", .str "Alice")])])])])])
      []
      = (1, [(.str "U1",
          [("id", .str "U1"), ("username", .str "alice"),
           ("name", .str "Alice"), ("is_bot", .bool false),
           ("deleted", .bool false), ("is_restricted", .bool false),
           ("is_ultra_restricted", .bool false)])]) := by
  rfl

/-- C9: on a window without the api object, installing wraps the four
transport slots and saves the originals; stop() writes the four originals
back (only the api object remains), and a transport call through the
restored slots behaves exactly like one through the pre-install slots; in
particular over pristine base slots it returns the underlying outcome with
no state change (no entry appended). -/
theorem claim_C9 (w : Window) (h : w.hasApi = false) :
    ∃ w1 saved, install w = some (w1, saved) ∧
      stop saved w1 = { w with hasApi := true } ∧
      (∀ (cfg : Config) (env : FetchEnv) (st : CaptureState),
        runFetch cfg (stop saved w1).fetchSlot env st
          = runFetch cfg w.fetchSlot env st) ∧
      (∀ (cfg : Config) (env : XhrEnv) (st : CaptureState),
        runSend cfg (stop saved w1).sendSlot env st
          = runSend cfg w.sendSlot env st) ∧
      (w.fetchSlot = .base → ∀ (cfg : Config) (env : FetchEnv) (st : CaptureState),
        runFetch cfg (stop saved w1).fetchSlot env st = (env.underlying, st)) ∧
      (w.sendSlot = .base → ∀ (cfg : Config) (env : XhrEnv) (st : CaptureState),
        runSend cfg (stop saved w1).sendSlot env st = (env.sendResult, st)) := by
  refine ⟨{ fetchSlot := .hooked w.fetchSlot, openSlot := .hooked w.openSlot,
            setHeaderSlot := .hooked w.setHeaderSlot,
            sendSlot := .hooked w.sendSlot, hasApi := true },
          { fetchFn := w.fetchSlot, openFn := w.openSlot,
            setHeaderFn := w.setHeaderSlot, sendFn := w.sendSlot },
          ?_, ?_, ?_, ?_, ?_, ?_⟩
  · unfold install
    rw [if_neg (by simp [h])]
  · cases w
    rfl
  · intro cfg env st
    rfl
  · intro cfg env st
    rfl
  · intro hb cfg env st
    show runFetch cfg w.fetchSlot env st = (env.underlying, st)
    rw [hb]
    rfl
  · intro hb cfg env st
    show runSend cfg w.sendSlot env st = (env.sendResult, st)
    rw [hb]
    rfl

theorem claim_C9_witness :
    ∃ w1 saved,
      install { fetchSlot := .base, openSlot := .base, setHeaderSlot := .base,
                sendSlot := .base, hasApi := false } = some (w1, saved) ∧
      stop saved w1 = { fetchSlot := Transport.base, openSlot := .base,
                        setHeaderSlot := .base, sendSlot := .base,
                        hasApi := true } ∧
      (∀ (cfg : Config) (env : FetchEnv) (st : CaptureState),
        runFetch cfg (stop saved w1).fetchSlot env st
          = runFetch cfg Transport.base env st) ∧
      (∀ (cfg : Config) (env : XhrEnv) (st : CaptureState),
        runSend cfg (stop saved w1).sendSlot env st
          = runSend cfg Transport.base env st) ∧
      (Transport.base = Transport.base →
        ∀ (cfg : Config) (env : FetchEnv) (st : CaptureState),
        runFetch cfg (stop saved w1).fetchSlot env st = (env.underlying, st)) ∧
      (Transport.base = Transport.base →
        ∀ (cfg : Config) (env : XhrEnv) (st : CaptureState),
        runSend cfg (stop saved w1).sendSlot env st = (env.sendResult, st)) :=
  claim_C9 { fetchSlot := .base, openSlot := .base, setHeaderSlot := .base,
             sendSlot := .base, hasApi := false } rfl

/-- C10: every registry state reachable from the empty registry by
addOrMergeUser and clearUsers satisfies the invariant: each stored record's
id field is present, equals the map key it is stored under, and that key is
truthy (non-empty). -/
theorem claim_C10 (s : RegState) (h : ReachableReg s) : RegInv s :=
  regInv_of_reachable h

theorem claim_C10_witness :
    RegInv (addOrMergeUser (clearUsers (addOrMergeUser [] uC1b)) uC1a) :=
  claim_C10 _ (ReachableReg.merge uC1a
    (ReachableReg.clear (ReachableReg.merge uC1b ReachableReg.empty)))

end SlackCapture
